import Mathlib

/-!
# discordupdate: the installer pipeline of `main.go`

A shallow embedding of `src/main.go` and proofs about it.

The program is a sequence of calls into the Go standard library and the
operating system.  Those are modelled here as follows.

* Strings are sequences of characters; file contents are sequences of bytes
  (natural numbers).
* `path/filepath` (`Clean`, `Join`, `Dir`) follows the Unix implementation of the
  Go standard library, component by component.
* The file system is a tree of directories and regular files without symbolic or
  hard links.  A path string names the node reached from the root (or from the
  working directory) by its components, `.` and empty components skipped and `..`
  stepping to the parent.  Permission bits are recorded as requested (no umask)
  and are not enforced; the disk is never full.
* The network and the gzip/tar decoder are inputs: the body of the HTTP response
  is a list of chunks, the decoder is a function from file contents to entries,
  applied when the source file is opened.
* The console is the list of print calls, each with its rendered operands.
* `strings.ToLower` lower-cases the ASCII letters by the fixed rule and every other
  character by the case table of package `unicode`, which is an input of the model.
* The text of a system-call error names the operation, the path given to the call
  and the error number.
-/

namespace Discordupdate

/-! ## strings -/

/-- Lower-casing of one character (`unicode.ToLower`): an ASCII character by the
fixed rule, a character beyond ASCII by the case table `tbl` of package `unicode`,
which is an input. -/
def lowerRune (tbl : Char → Char) (c : Char) : Char :=
  if c.toNat < 128 then (if 'A' ≤ c ∧ c ≤ 'Z' then Char.ofNat (c.toNat + 32) else c)
  else tbl c

/-- Model of `strings.ToLower`, over the case table of package `unicode`. -/
def strings.ToLower (tbl : Char → Char) (s : String) : String :=
  ⟨s.data.map (lowerRune tbl)⟩

/-- Whether `sub` occurs in `s` as a contiguous block. -/
def containsChars (sub : List Char) : List Char → Bool
  | [] => sub.isPrefixOf []
  | c :: cs => sub.isPrefixOf (c :: cs) || containsChars sub cs

/-- Model of `strings.Contains`. -/
def strings.Contains (s substr : String) : Bool := containsChars substr.data s.data

/-! ## path/filepath (Unix) -/

/-- Split a character sequence at every `/`. -/
def splitSlash : List Char → List (List Char)
  | [] => [[]]
  | c :: cs =>
    if c = '/' then [] :: splitSlash cs
    else
      match splitSlash cs with
      | [] => [[c]]
      | x :: xs => (c :: x) :: xs

/-- The components of a path string, empty ones included. -/
def components (s : String) : List String := (splitSlash s.data).map String.mk

/-- Whether a path starts with the separator. -/
def isRooted (s : String) : Bool := decide (s.data.head? = some '/')

/-- One round of the loop of `filepath.Clean`: the output so far is `stack`
(last element first), `comp` is the element just read. -/
def cleanStep (rooted : Bool) (stack : List String) (comp : String) : List String :=
  if comp = "" ∨ comp = "." then stack
  else if comp = ".." then
    match stack with
    | [] => if rooted then [] else [".."]
    | top :: rest =>
      if top = ".." then (if rooted then stack else ".." :: stack) else rest
  else comp :: stack

/-- Model of `strings.Join(elems, "/")`. -/
def joinSlash : List String → String
  | [] => ""
  | [x] => x
  | x :: y :: rest => x ++ "/" ++ joinSlash (y :: rest)

/-- The output of `filepath.Clean` for the elements kept: a rooted path is the
separator followed by the elements, an unrooted one with no element is `.`. -/
def render (rooted : Bool) (elems : List String) : String :=
  if rooted then "/" ++ joinSlash elems
  else if elems = [] then "." else joinSlash elems

/-- Model of `filepath.Clean`. -/
def filepath.Clean (path : String) : String :=
  if path = "" then "."
  else render (isRooted path) ((components path).foldl (cleanStep (isRooted path)) []).reverse

/-- Model of `filepath.Join`: the elements from the first non-empty one on are
joined with the separator and cleaned. -/
def filepath.Join : List String → String
  | [] => ""
  | e :: rest => if e = "" then filepath.Join rest else filepath.Clean (joinSlash (e :: rest))

/-- The part of a path up to and including its last separator. -/
def dirPart (cs : List Char) : List Char :=
  (cs.reverse.dropWhile (fun c => c != '/')).reverse

/-- Model of `filepath.Dir`. -/
def filepath.Dir (path : String) : String := filepath.Clean ⟨dirPart path.data⟩

/-- One step of path resolution. -/
def resolveStep (stack : List String) (comp : String) : List String :=
  if comp = "" ∨ comp = "." then stack
  else if comp = ".." then stack.tail
  else comp :: stack

/-- The absolute position (names from the root) a path string denotes for a
process whose working directory is `cwd`. -/
def resolve (cwd : List String) (path : String) : List String :=
  ((components path).foldl resolveStep (if isRooted path then [] else cwd.reverse)).reverse

/-! ## the file system -/

/-- Error numbers of the system calls the program makes. -/
inductive Errno where
  | ENOENT | ENOTDIR | EISDIR | EEXIST | EINVAL | ENOTEMPTY | EBUSY
  deriving DecidableEq, Repr

/-- The message of an error number. -/
def Errno.text : Errno → String
  | .ENOENT => "no such file or directory"
  | .ENOTDIR => "not a directory"
  | .EISDIR => "is a directory"
  | .EEXIST => "file exists"
  | .EINVAL => "invalid argument"
  | .ENOTEMPTY => "directory not empty"
  | .EBUSY => "device or resource busy"

deriving instance DecidableEq for Except

/-- A node of the file tree: a regular file with its permission bits and bytes, or
a directory with its permission bits and named children. -/
inductive Node where
  | file (perm : Nat) (content : List Nat) : Node
  | dir (perm : Nat) (children : List (String × Node)) : Node

/-- What a caller sees of a node: its kind and permission bits, and for a regular
file its bytes. -/
inductive Info where
  | file (perm : Nat) (content : List Nat) : Info
  | dir (perm : Nat) : Info
  deriving DecidableEq, Repr

def Node.info : Node → Info
  | .file p c => .file p c
  | .dir p _ => .dir p

def Node.isDir : Node → Bool
  | .file _ _ => false
  | .dir _ _ => true

/-- The child of that name (the first one, should a name occur twice). -/
def getChild (name : String) : List (String × Node) → Option Node
  | [] => none
  | (k, v) :: rest => if k = name then some v else getChild name rest

/-- Bind `name` to `v`: in place if the name is bound, at the end otherwise. -/
def setChild (name : String) (v : Node) : List (String × Node) → List (String × Node)
  | [] => [(name, v)]
  | (k, x) :: rest => if k = name then (k, v) :: rest else (k, x) :: setChild name v rest

/-- Remove every binding of `name`. -/
def delChild (name : String) : List (String × Node) → List (String × Node)
  | [] => []
  | (k, x) :: rest => if k = name then delChild name rest else (k, x) :: delChild name rest

/-- Path lookup from a node. A missing name is `ENOENT`, a step through a regular
file is `ENOTDIR`. -/
def Node.find : Node → List String → Except Errno Node
  | n, [] => .ok n
  | .file _ _, _ :: _ => .error .ENOTDIR
  | .dir _ ch, c :: rest =>
    match getChild c ch with
    | none => .error .ENOENT
    | some n => n.find rest

/-- Lookup reduced to what a caller sees. -/
def Node.stat (n : Node) (path : List String) : Except Errno Info :=
  match n.find path with
  | .ok m => .ok m.info
  | .error e => .error e

/-- Path lookup below an optional node, without the error number. -/
def findOpt : Option Node → List String → Option Node
  | o, [] => o
  | none, _ :: _ => none
  | some (.file _ _), _ :: _ => none
  | some (.dir _ ch), c :: rest => findOpt (getChild c ch) rest

/-- What a caller sees at a path below an optional node. -/
def statOpt : Option Node → List String → Except Errno Info
  | none, _ => .error .ENOENT
  | some n, path => n.stat path

/-- Change the entry at `path` below an optional node: `f` receives the node there
(`none` when the last name is unbound in an existing directory) and returns the
node to put there (`none` to unlink). The ancestors of `path` must exist and be
directories. -/
def alterAt (f : Option Node → Except Errno (Option Node)) :
    Option Node → List String → Except Errno (Option Node)
  | o, [] => f o
  | none, _ :: _ => .error .ENOENT
  | some (.file _ _), _ :: _ => .error .ENOTDIR
  | some (.dir p ch), c :: rest =>
    match alterAt f (getChild c ch) rest with
    | .error e => .error e
    | .ok none => .ok (some (.dir p (delChild c ch)))
    | .ok (some m) => .ok (some (.dir p (setChild c m ch)))

/-- Change the entry at `path` of a tree; the root itself cannot be unlinked. -/
def Node.alter (f : Option Node → Except Errno (Option Node)) (n : Node)
    (path : List String) : Except Errno Node :=
  match alterAt f (some n) path with
  | .error e => .error e
  | .ok none => .error .EBUSY
  | .ok (some m) => .ok m

/-- Opening a regular file for writing with `O_CREATE` and writing `data` from
offset 0: a missing file is created with `perm`; an existing one keeps its
permission bits and, unless `trunc` (`O_TRUNC`), the bytes beyond `data`. -/
def openWrite (trunc : Bool) (perm : Nat) (data : List Nat) :
    Option Node → Except Errno (Option Node)
  | none => .ok (some (.file perm data))
  | some (.file p old) =>
    .ok (some (.file p (if trunc then data else data ++ old.drop data.length)))
  | some (.dir _ _) => .error .EISDIR

/-- The node there, or a fresh empty directory. -/
def orNew (perm : Nat) : Option Node → Node
  | none => .dir perm []
  | some n => n

/-- Model of `os.MkdirAll` on a resolved path: every missing directory on the way is
created with `perm`; a regular file on the way is `ENOTDIR`. -/
def Node.mkdirAll (perm : Nat) : Node → List String → Except Errno Node
  | .file _ _, _ => .error .ENOTDIR
  | .dir p ch, [] => .ok (.dir p ch)
  | .dir p ch, c :: rest =>
    match (orNew perm (getChild c ch)).mkdirAll perm rest with
    | .error e => .error e
    | .ok m => .ok (.dir p (setChild c m ch))

/-- Model of `os.RemoveAll` on a resolved path: the subtree is unlinked; a path
that does not exist is not an error. -/
def Node.removeAll : Node → List String → Except Errno Node
  | _, [] => .error .EBUSY
  | .file _ _, _ :: _ => .error .ENOTDIR
  | .dir p ch, [c] => .ok (.dir p (delChild c ch))
  | .dir p ch, c :: d :: rest =>
    match getChild c ch with
    | none => .ok (.dir p ch)
    | some n =>
      match n.removeAll (d :: rest) with
      | .error e => .error e
      | .ok m => .ok (.dir p (setChild c m ch))

/-- What `rename(2)` does at the new name with the node `src` being moved. -/
def placeNode (src : Node) : Option Node → Except Errno (Option Node)
  | none => .ok (some src)
  | some (.file _ _) => if src.isDir then .error .ENOTDIR else .ok (some src)
  | some (.dir _ ch) =>
    if src.isDir then (if ch.isEmpty then .ok (some src) else .error .ENOTEMPTY)
    else .error .EISDIR

/-- Model of `rename(2)` on resolved paths. -/
def Node.renameAt (n : Node) (old new : List String) : Except Errno Node :=
  match n.find old with
  | .error e => .error e
  | .ok src =>
    if old = new then .ok n
    else if old.isPrefixOf new then .error (if src.isDir then .EINVAL else .ENOTDIR)
    else
      match n.alter (fun _ => .ok none) old with
      | .error e => .error e
      | .ok m => m.alter (placeNode src) new

/-- An entry of a directory listing (`os.DirEntry`). -/
structure DirEntry where
  name : String
  isDir : Bool
  deriving DecidableEq, Repr

/-- Names a directory entry can have. -/
def plainName (s : String) : Bool :=
  decide (s ≠ "" ∧ s ≠ "." ∧ s ≠ "..") && !s.data.contains '/'

/-- The children a lookup can reach, in storage order: bindings with a name that is
not an entry name, or shadowed by an earlier binding of the same name, are
unreachable and not listed. -/
def visibleEntries : List (String × Node) → List DirEntry
  | [] => []
  | (k, v) :: rest =>
    if plainName k then
      ⟨k, v.isDir⟩ :: (visibleEntries rest).filter (fun e => decide (e.name ≠ k))
    else visibleEntries rest

/-- Lexicographic order on character sequences by code point, the byte order of
their UTF-8 encodings. -/
def charsLt : List Char → List Char → Bool
  | _, [] => false
  | [], _ :: _ => true
  | a :: as, b :: bs => decide (a.toNat < b.toNat) || (decide (a = b) && charsLt as bs)

/-- Listing order of `os.ReadDir`: sorted by file name. -/
def sortEntries (es : List DirEntry) : List DirEntry :=
  es.insertionSort (fun a b => charsLt b.name.data a.name.data = false)

/-! ## errors, console, environment -/

/-- Go error values. -/
inductive Error where
  | sys (op : String) (path : String) (e : Errno) : Error
  | link (op : String) (oldname newname : String) (e : Errno) : Error
  | msg (text : String) : Error
  | wrap (text : String) (cause : Error) : Error
  deriving DecidableEq, Repr

/-- Rendering of an error as Go's `err.Error()`. -/
def Error.text : Error → String
  | .sys op path e => op ++ " " ++ path ++ ": " ++ e.text
  | .link op o n e => op ++ " " ++ o ++ " " ++ n ++ ": " ++ e.text
  | .msg t => t
  | .wrap t c => t ++ ": " ++ c.text

/-- The console: one element per print call, holding its rendered operands. -/
abbrev Console := List (List String)

/-- A tar header as the program reads it. -/
structure Header where
  Name : String
  Typeflag : Nat
  Mode : Int
  deriving DecidableEq, Repr

/-- One archive entry: its header, the payload bytes the reader delivers, and the
error (if any) the reader reports after them. -/
structure Entry where
  header : Header
  payload : List Nat
  readErr : Option Error
  deriving DecidableEq, Repr

/-- Type flag of a regular file (`tar.TypeReg`, the byte `'0'`). -/
def TypeReg : Nat := 48

/-- Type flag of a directory (`tar.TypeDir`, the byte `'5'`). -/
def TypeDir : Nat := 53

/-- A decoded archive: `none` when `gzip.NewReader` fails, otherwise the entries
`tarReader.Next` returns and what it returns after them (`none` for `io.EOF`). -/
structure TarStream where
  entries : List Entry
  tail : Option Error
  deriving DecidableEq, Repr

/-- Outcome of `http.Get`: a failure, or a body delivered in chunks and ended by
`io.EOF` (`none`) or a read error. -/
inductive HttpResult where
  | fail (e : Error) : HttpResult
  | body (chunks : List (List Nat)) (readErr : Option Error) : HttpResult

/-- What the run is given from outside. -/
structure Env where
  cwd : List String
  user : Except Error String
  http : String → HttpResult
  gunzip : List Nat → Except Error TarStream
  caseTable : Char → Char

/-- The mutable world: file tree and console. -/
structure World where
  fs : Node
  out : Console

/-! ## package os -/

/-- The position a system call resolves a path string to; the empty string names
nothing. -/
def locate (env : Env) (path : String) : Except Errno (List String) :=
  if path = "" then .error .ENOENT else .ok (resolve env.cwd path)

/-- Model of `os.Stat`. -/
def os.Stat (env : Env) (fs : Node) (path : String) : Except Errno Info :=
  match locate env path with
  | .error e => .error e
  | .ok p => fs.stat p

/-- Model of `os.IsNotExist` on the error of a system call. -/
def os.IsNotExist : Except Errno Info → Bool
  | .error .ENOENT => true
  | _ => false

/-- Opening `path` with `O_CREATE` (and `O_TRUNC` when `trunc`) and writing `data`
from offset 0. -/
def os.writeOpen (env : Env) (fs : Node) (path : String) (trunc : Bool) (perm : Nat)
    (data : List Nat) : Except Error Node :=
  match locate env path with
  | .error e => .error (.sys "open" path e)
  | .ok p =>
    match fs.alter (openWrite trunc perm data) p with
    | .error e => .error (.sys "open" path e)
    | .ok m => .ok m

/-- Model of `os.Create`: `O_RDWR|O_CREATE|O_TRUNC` with mode 0666. -/
def os.Create (env : Env) (fs : Node) (path : String) : Except Error Node :=
  os.writeOpen env fs path true 0o666 []

/-- Model of `os.WriteFile`: `O_WRONLY|O_CREATE|O_TRUNC`, then the data. -/
def os.WriteFile (env : Env) (fs : Node) (path : String) (data : List Nat) (perm : Nat) :
    Except Error Node :=
  os.writeOpen env fs path true perm data

/-- Model of `os.MkdirAll`. -/
def os.MkdirAll (env : Env) (fs : Node) (path : String) (perm : Nat) : Except Error Node :=
  match locate env path with
  | .error e => .error (.sys "mkdir" path e)
  | .ok p =>
    match fs.mkdirAll perm p with
    | .error e => .error (.sys "mkdir" path e)
    | .ok m => .ok m

/-- Model of `os.RemoveAll`; the empty path is not an error. -/
def os.RemoveAll (env : Env) (fs : Node) (path : String) : Except Error Node :=
  if path = "" then .ok fs
  else
    match fs.removeAll (resolve env.cwd path) with
    | .error e => .error (.sys "unlinkat" path e)
    | .ok m => .ok m

/-- Model of `os.Rename`: Go refuses a new name that is an existing directory
before it calls `rename(2)`. -/
def os.Rename (env : Env) (fs : Node) (oldname newname : String) : Except Error Node :=
  match locate env oldname, locate env newname with
  | .error e, _ => .error (.link "rename" oldname newname e)
  | _, .error e => .error (.link "rename" oldname newname e)
  | .ok o, .ok n =>
    match fs.find n with
    | .ok (.dir _ _) =>
      match fs.find o with
      | .error e => .error (.link "rename" oldname newname e)
      | .ok _ =>
        if oldname = newname ∨ o ≠ n then .error (.link "rename" oldname newname .EEXIST)
        else .ok fs
    | _ =>
      match fs.renameAt o n with
      | .error e => .error (.link "rename" oldname newname e)
      | .ok m => .ok m

/-- Model of `os.ReadDir`: the entries of a directory sorted by name. -/
def os.ReadDir (env : Env) (fs : Node) (path : String) : Except Error (List DirEntry) :=
  match locate env path with
  | .error e => .error (.sys "open" path e)
  | .ok p =>
    match fs.find p with
    | .error e => .error (.sys "open" path e)
    | .ok (.file _ _) => .error (.sys "readdirent" path .ENOTDIR)
    | .ok (.dir _ ch) => .ok (sortEntries (visibleEntries ch))

/-- UTF-8 bytes of one character. -/
def utf8Char (c : Char) : List Nat :=
  let n := c.toNat
  if n < 0x80 then [n]
  else if n < 0x800 then [0xC0 + n / 64, 0x80 + n % 64]
  else if n < 0x10000 then [0xE0 + n / 4096, 0x80 + n / 64 % 64, 0x80 + n % 64]
  else [0xF0 + n / 262144, 0x80 + n / 4096 % 64, 0x80 + n / 64 % 64, 0x80 + n % 64]

/-- The bytes of a string, Go's `[]byte(s)`. -/
def bytesOf (s : String) : List Nat := s.data.flatMap utf8Char

/-- The permission bits of `os.FileMode(mode)` for an `int64` mode. -/
def permOf (mode : Int) : Nat := (mode % 512).toNat

/-! ## the program -/

/-- Model of `fmt.Println`: one console element holding the operands. -/
def println (args : List String) (w : World) : World :=
  { w with out := w.out ++ [args] }

/-- The counter behind the download progress display. -/
structure progressWriter where
  total : Int
  written : Int
  deriving DecidableEq, Repr

/-- Two's complement wrap-around of `int64` arithmetic. -/
def wrapInt64 (x : Int) : Int := (x + 2 ^ 63) % 2 ^ 64 - 2 ^ 63

/-- Model of `(*progressWriter).Write`: the updated counter, the text printed, and
the returned pair. -/
def progressWriter.Write (pw : progressWriter) (p : List Nat) :
    progressWriter × String × (Nat × Option Error) :=
  let n := p.length
  let pw1 : progressWriter := { pw with written := wrapInt64 (pw.written + (n : Int)) }
  (pw1, "\rDownloading... " ++ toString pw1.written ++ " bytes", (n, none))

/-- The loop of `io.Copy(out, io.TeeReader(resp.Body, pw))`: every non-empty chunk
read from the body is passed to `pw.Write` and then written to the file. The result
is the counter, the console, the bytes written and the error of a failed `Write`. -/
def copyBody : List (List Nat) → progressWriter → Console → List Nat →
    progressWriter × Console × List Nat × Option Error
  | [], pw, out, acc => (pw, out, acc, none)
  | p :: ps, pw, out, acc =>
    if p.isEmpty then copyBody ps pw out acc
    else
      match pw.Write p with
      | (pw1, line, (_, some e)) => (pw1, out ++ [[line]], acc, some e)
      | (pw1, line, (_, none)) => copyBody ps pw1 (out ++ [[line]]) (acc ++ p)

/-- Model of `downloadFile`. -/
def downloadFile (env : Env) (url filepath : String) (w : World) : World × Option Error :=
  let w := println ["Step 1: Starting download..."] w
  match os.Create env w.fs filepath with
  | .error err => (w, some (.wrap "failed to create file" err))
  | .ok fs1 =>
    let w : World := { w with fs := fs1 }
    match env.http url with
    | .fail err => (w, some (.wrap "failed to download" err))
    | .body chunks readErr =>
      let pw : progressWriter := { total := 0, written := 0 }
      match copyBody chunks pw w.out [] with
      | (_, out1, data, werr) =>
        let fs2 :=
          match os.writeOpen env w.fs filepath false 0o666 data with
          | .ok m => m
          | .error _ => w.fs
        let w : World := { fs := fs2, out := out1 }
        match (match werr with
               | some e => some e
               | none => readErr) with
        | some err => (w, some (.wrap "error while downloading" err))
        | none => (println ["\nDownload complete."] w, none)

/-- Model of `removeDirIfExists`. -/
def removeDirIfExists (env : Env) (path : String) (w : World) : World × Option Error :=
  if !os.IsNotExist (os.Stat env w.fs path) then
    let w := println ["Removing existing Discord folder at", path] w
    match os.RemoveAll env w.fs path with
    | .error err => (w, some err)
    | .ok m => ({ w with fs := m }, none)
  else (w, none)

/-- The body of the loop of `extractTarGz` for one entry. -/
def extractEntry (env : Env) (destDir : String) (e : Entry) (w : World) :
    World × Option Error :=
  let name := e.header.Name
  let target := filepath.Join [destDir, name]
  if e.header.Typeflag = TypeDir then
    match os.MkdirAll env w.fs target (permOf e.header.Mode) with
    | .error err => (w, some (.wrap "error creating directory" err))
    | .ok m => ({ w with fs := m }, none)
  else if e.header.Typeflag = TypeReg then
    match os.MkdirAll env w.fs (filepath.Dir target) 0o755 with
    | .error err => (w, some (.wrap "error creating parent directory" err))
    | .ok m =>
      match os.writeOpen env m target false (permOf e.header.Mode) e.payload with
      | .error err => ({ w with fs := m }, some (.wrap "error creating file" err))
      | .ok m1 =>
        match e.readErr with
        | some err => ({ w with fs := m1 }, some (.wrap "error writing file" err))
        | none => (println ["Extracted file:", target] { w with fs := m1 }, none)
  else (println ["Skipping unsupported file type: " ++ name ++ "\n"] w, none)

/-- The loop of `extractTarGz` over the entries `tarReader.Next` returns. -/
def extractLoop (env : Env) (destDir : String) (tail : Option Error) :
    List Entry → World → World × Option Error
  | [], w =>
    match tail with
    | some err => (w, some (.wrap "error during extraction" err))
    | none => (w, none)
  | e :: es, w =>
    match extractEntry env destDir e w with
    | (w1, some err) => (w1, some err)
    | (w1, none) => extractLoop env destDir tail es w1

/-- Model of `extractTarGz`. -/
def extractTarGz (env : Env) (srcFile destDir : String) (w : World) : World × Option Error :=
  let w := println ["Step 2: Starting extraction..."] w
  match (match locate env srcFile with
         | .error e => Except.error e
         | .ok p => w.fs.find p) with
  | .error e => (w, some (.wrap "failed to open tar.gz" (.sys "open" srcFile e)))
  | .ok (.dir _ _) =>
    (w, some (.wrap "failed to create gzip reader" (.sys "read" srcFile .EISDIR)))
  | .ok (.file _ content) =>
    match env.gunzip content with
    | .error err => (w, some (.wrap "failed to create gzip reader" err))
    | .ok archive =>
      match extractLoop env destDir archive.tail archive.entries w with
      | (w1, some err) => (w1, some err)
      | (w1, none) => (println ["Extraction complete."] w1, none)

/-- The text of the launcher descriptor. -/
def desktopFileContent (execPath : String) : String :=
  "[Desktop Entry]\nVersion=1.0\nType=Application\nName=Discord\nComment=Discord Chat Client\nExec="
    ++ execPath ++ "\nIcon=" ++ execPath ++ "\nTerminal=false\nCategories=Network;Chat;\n"

/-- The closure `createIfNotExists` of `createDesktopFile`. -/
def createIfNotExists (env : Env) (content : String) (path : String) (w : World) :
    World × Option Error :=
  if os.IsNotExist (os.Stat env w.fs path) then
    let w := println ["Creating desktop icon at", path] w
    match os.WriteFile env w.fs path (bytesOf content) 0o755 with
    | .error err => (w, some err)
    | .ok m => ({ w with fs := m }, none)
  else (println ["Desktop icon already exists at", path] w, none)

/-- The two launcher locations. -/
def desktopPath (homeDir : String) : String :=
  filepath.Join [homeDir, "Desktop", "discord.desktop"]

def applicationsPath (homeDir : String) : String :=
  filepath.Join [homeDir, ".local", "share", "applications", "discord.desktop"]

/-- Model of `createDesktopFile`. -/
def createDesktopFile (env : Env) (homeDir execPath : String) (w : World) :
    World × Option Error :=
  match createIfNotExists env (desktopFileContent execPath) (desktopPath homeDir) w with
  | (w1, some err) => (w1, some err)
  | (w1, none) =>
    match createIfNotExists env (desktopFileContent execPath) (applicationsPath homeDir) w1 with
    | (w2, some err) => (w2, some err)
    | (w2, none) => (w2, none)

/-- The test of the loop in `main`: a directory whose lower-cased name contains
"discord". -/
def qualifies (tbl : Char → Char) (entry : DirEntry) : Bool :=
  entry.isDir && strings.Contains (strings.ToLower tbl entry.name) "discord"

/-- The loop in `main` that determines `extractedDir`; the empty string when no
entry is selected. -/
def findExtractedDir (tbl : Char → Char) (homeDir : String) : List DirEntry → String
  | [] => ""
  | entry :: rest =>
    if qualifies tbl entry then filepath.Join [homeDir, entry.name]
    else findExtractedDir tbl homeDir rest

/-- The functions `main` calls, over a state `σ`. -/
structure Sys (σ : Type) where
  Current : σ → σ × Except Error String
  Println : List String → σ → σ
  removeDirIfExists : String → σ → σ × Option Error
  downloadFile : String → String → σ → σ × Option Error
  extractTarGz : String → String → σ → σ × Option Error
  ReadDir : String → σ → σ × Except Error (List DirEntry)
  Rename : String → String → σ → σ × Option Error
  createDesktopFile : String → String → σ → σ × Option Error

/-- Model of `main`, over the functions it calls. -/
def mainWith {σ : Type} (tbl : Char → Char) (sys : Sys σ) (s0 : σ) : σ :=
  match sys.Current s0 with
  | (s, .error err) => sys.Println ["Error getting current user:", err.text] s
  | (s, .ok homeDir) =>
    let downloadURL := "https://discord.com/api/download?platform=linux&format=tar.gz"
    let downloadPath := "/var/tmp/discord.tar.gz"
    let discordDir := filepath.Join [homeDir, "Discord"]
    let s := sys.Println ["=== Discord Installer ==="] s
    match sys.removeDirIfExists discordDir s with
    | (s, some err) => sys.Println ["Error removing old Discord folder:", err.text] s
    | (s, none) =>
      match sys.downloadFile downloadURL downloadPath s with
      | (s, some err) => sys.Println ["Error during download:", err.text] s
      | (s, none) =>
        match sys.extractTarGz downloadPath homeDir s with
        | (s, some err) => sys.Println ["Error during extraction:", err.text] s
        | (s, none) =>
          match sys.ReadDir homeDir s with
          | (s, .error err) => sys.Println ["Error reading home directory:", err.text] s
          | (s, .ok entries) =>
            let extractedDir := findExtractedDir tbl homeDir entries
            if extractedDir = "" then
              sys.Println ["Error: Could not find extracted Discord folder."] s
            else
              match (if extractedDir ≠ discordDir then
                       sys.Rename extractedDir discordDir
                         (sys.Println ["Renaming", extractedDir, "to", discordDir] s)
                     else (s, none)) with
              | (s, some err) => sys.Println ["Error renaming folder:", err.text] s
              | (s, none) =>
                let discordBinary := filepath.Join [discordDir, "Discord"]
                match sys.createDesktopFile homeDir discordBinary s with
                | (s, some err) => sys.Println ["Error creating desktop file:", err.text] s
                | (s, none) => sys.Println ["Installation complete!"] s

/-- The functions `main` calls, on the modelled world. -/
def realSys (env : Env) : Sys World where
  Current := fun w => (w, env.user)
  Println := println
  removeDirIfExists := removeDirIfExists env
  downloadFile := downloadFile env
  extractTarGz := extractTarGz env
  ReadDir := fun path w => (w, os.ReadDir env w.fs path)
  Rename := fun o n w =>
    match os.Rename env w.fs o n with
    | .error err => (w, some err)
    | .ok m => ({ w with fs := m }, none)
  createDesktopFile := createDesktopFile env

/-- Model of `main`. -/
def main (env : Env) (w : World) : World := mainWith env.caseTable (realSys env) w

/-! ## instrumented runs -/

/-- The calls `main` makes. -/
inductive Call where
  | Current | removeDirIfExists | downloadFile | extractTarGz | ReadDir | Rename
  | createDesktopFile
  deriving DecidableEq, Repr

/-- The outcome of each call of one run of `main`; `main` makes each call at most
once, so one outcome per call describes any run. -/
structure Script where
  home : Except Error String
  clear : Option Error
  download : Option Error
  extract : Option Error
  listing : Except Error (List DirEntry)
  rename : Option Error
  register : Option Error

/-- What an instrumented run records: the calls made, in order, and the console. -/
structure Trace where
  calls : List Call
  out : Console
  deriving DecidableEq, Repr

/-- Record a call. -/
def Trace.log (t : Trace) (c : Call) : Trace := { t with calls := t.calls ++ [c] }

/-- Functions that record their invocation and answer as the script says. -/
def scripted (o : Script) : Sys Trace where
  Current := fun t => (t.log .Current, o.home)
  Println := fun args t => { t with out := t.out ++ [args] }
  removeDirIfExists := fun _ t => (t.log .removeDirIfExists, o.clear)
  downloadFile := fun _ _ t => (t.log .downloadFile, o.download)
  extractTarGz := fun _ _ t => (t.log .extractTarGz, o.extract)
  ReadDir := fun _ t => (t.log .ReadDir, o.listing)
  Rename := fun _ _ t => (t.log .Rename, o.rename)
  createDesktopFile := fun _ _ t => (t.log .createDesktopFile, o.register)

/-- The instrumented run of `main` under a script. -/
def runScript (tbl : Char → Char) (o : Script) : Trace :=
  mainWith tbl (scripted o) { calls := [], out := [] }

/-- The order of the pipeline. -/
def pipeline : List Call :=
  [.Current, .removeDirIfExists, .downloadFile, .extractTarGz, .ReadDir, .Rename,
   .createDesktopFile]

/-- Whether the script lets a call fail. -/
def Script.fails (o : Script) : Call → Bool
  | .Current => !o.home.toBool
  | .removeDirIfExists => o.clear.isSome
  | .downloadFile => o.download.isSome
  | .extractTarGz => o.extract.isSome
  | .ReadDir => !o.listing.toBool
  | .Rename => o.rename.isSome
  | .createDesktopFile => o.register.isSome

/-- The stages of the pipeline, as the spec names them. -/
inductive Stage where
  | ResolveHome | ClearPriorInstall | Download | Extract | LocateAndRename
  | RegisterLaunchers
  deriving DecidableEq, Repr

/-- The order of the stages in the spec:
`ResolveHome → ClearPriorInstall → Download → Extract → LocateAndRename →
RegisterLaunchers → Done`. -/
def stages : List Stage :=
  [.ResolveHome, .ClearPriorInstall, .Download, .Extract, .LocateAndRename,
   .RegisterLaunchers]

/-- Whether a stage fails under a script. `LocateAndRename` fails when the listing
fails, when no entry is selected, or when the selected directory has to be renamed
and the rename fails. -/
def Script.stageFails (tbl : Char → Char) (o : Script) : Stage → Bool
  | .ResolveHome => !o.home.toBool
  | .ClearPriorInstall => o.clear.isSome
  | .Download => o.download.isSome
  | .Extract => o.extract.isSome
  | .LocateAndRename =>
    match o.home, o.listing with
    | .ok homeDir, .ok entries =>
      decide (findExtractedDir tbl homeDir entries = "") ||
        (decide (findExtractedDir tbl homeDir entries ≠ filepath.Join [homeDir, "Discord"]) &&
          o.rename.isSome)
    | _, _ => true
  | .RegisterLaunchers => o.register.isSome

/-- The calls a stage makes when it runs. `LocateAndRename` lists the home directory
and renames the selected directory unless it has the canonical name already. -/
def Script.stageCalls (tbl : Char → Char) (o : Script) : Stage → List Call
  | .ResolveHome => [.Current]
  | .ClearPriorInstall => [.removeDirIfExists]
  | .Download => [.downloadFile]
  | .Extract => [.extractTarGz]
  | .LocateAndRename =>
    match o.home, o.listing with
    | .ok homeDir, .ok entries =>
      if findExtractedDir tbl homeDir entries ≠ "" ∧
          findExtractedDir tbl homeDir entries ≠ filepath.Join [homeDir, "Discord"] then
        [.ReadDir, .Rename]
      else [.ReadDir]
    | _, _ => [.ReadDir]
  | .RegisterLaunchers => [.createDesktopFile]

/-- The state machine of the spec: the stages run in order, up to and including the
first one that fails. -/
def throughFirstFailure (fails : Stage → Bool) : List Stage → List Stage
  | [] => []
  | s :: rest => if fails s then [s] else s :: throughFirstFailure fails rest

/-- The zero value `&progressWriter{}`. -/
def freshWriter : progressWriter := { total := 0, written := 0 }

/-- The counter after a sequence of `Write` calls. -/
def writeAll (chunks : List (List Nat)) (pw : progressWriter) : progressWriter :=
  chunks.foldl (fun w p => (w.Write p).1) pw

/-- Entries the loop of `extractTarGz` acts on. -/
def supported (e : Entry) : Bool :=
  decide (e.header.Typeflag = TypeDir) || decide (e.header.Typeflag = TypeReg)

/-- A decoder whose archives have the unsupported entries removed. -/
def dropUnsupported (gunzip : List Nat → Except Error TarStream) :
    List Nat → Except Error TarStream :=
  fun content =>
    match gunzip content with
    | .error e => .error e
    | .ok a => .ok { a with entries := a.entries.filter supported }

/-! ## notions used in the statements and proofs -/

/-- A string without a separator. -/
def SlashFree (s : String) : Prop := '/' ∉ s.data

/-- The invariant of the output of `filepath.Clean` while it is built. -/
def CleanInv (r : Bool) (st : List String) : Prop :=
  ∀ x ∈ st, x ≠ "" ∧ x ≠ "." ∧ SlashFree x ∧ (r = true → x ≠ "..")

/-- The elements `filepath.Clean` keeps of a path. -/
def cleanElems (path : String) : List String :=
  ((components path).foldl (cleanStep (isRooted path)) []).reverse

/-- What the path `nm` denotes when followed from the position `base`. -/
def resolveFrom (base : List String) (nm : String) : List String :=
  ((components nm).foldl resolveStep base.reverse).reverse

/-- The total number of bytes in a sequence of chunks. -/
def totalBytes (chunks : List (List Nat)) : Nat := (chunks.map List.length).sum

/-- The directory of the desktop launcher. -/
def desktopDir (homeDir : String) : String := filepath.Join [homeDir, "Desktop"]

/-- The directory of the menu launcher. -/
def applicationsDir (homeDir : String) : String :=
  filepath.Join [homeDir, ".local", "share", "applications"]

/-- A regular-file entry that is read without error. -/
def fileEntry (name : String) (mode : Int) (payload : List Nat) : Entry :=
  ⟨⟨name, TypeReg, mode⟩, payload, none⟩

/-- A directory entry; `slash` says whether its name ends in the separator. -/
def dirEntry (parent : String) (slash : Bool) (mode : Int) (junk : List Nat) : Entry :=
  ⟨⟨if slash then parent ++ "/" else parent, TypeDir, mode⟩, junk, none⟩

/-- An excerpt of the case table of package `unicode` for examples: U+0130 (capital
I with dot above) is lower-cased to `i`. -/
def sampleTable (c : Char) : Char := if c.toNat = 0x130 then 'i' else c

/-- An environment for examples: the user's home is `/home/u`, the download
delivers three bytes in two chunks, and the decoder yields `archive`. -/
def sampleEnv (archive : TarStream) : Env :=
  { cwd := [], user := .ok "/home/u", http := fun _ => .body [[31, 139], [8]] none,
    gunzip := fun _ => .ok archive, caseTable := sampleTable }

/-- A file system with an empty home directory `/home/u` and the staging area
`/var/tmp`. -/
def bareHome : Node :=
  .dir 0o755 [("home", .dir 0o755 [("u", .dir 0o700 [])]),
              ("var", .dir 0o755 [("tmp", .dir 0o777 [])])]

/-- The same with the staging file in place. -/
def stagedHome : Node :=
  .dir 0o755 [("home", .dir 0o755 [("u", .dir 0o700 [])]),
              ("var", .dir 0o755 [("tmp", .dir 0o777
                [("discord.tar.gz", .file 0o666 [31, 139, 8])])])]

/-- A file system whose home directory has the two launcher directories. -/
def desktopHome : Node :=
  .dir 0o755
    [("home", .dir 0o755 [("u", .dir 0o700
        [("Desktop", .dir 0o755 []),
         (".local", .dir 0o755 [("share", .dir 0o755 [("applications", .dir 0o755 [])])])])]),
     ("var", .dir 0o755 [("tmp", .dir 0o777 [])])]

/-- A file system whose home directory has a launcher on the desktop already and an
empty menu directory. -/
def halfHome : Node :=
  .dir 0o755
    [("home", .dir 0o755 [("u", .dir 0o700
        [("Desktop", .dir 0o755 [("discord.desktop", .file 0o644 [35, 109, 105, 110, 101])]),
         (".local", .dir 0o755 [("share", .dir 0o755 [("applications", .dir 0o755 [])])])])])]

/-- A file system whose home directory has a launcher on the desktop already. -/
def launcherHome : Node :=
  .dir 0o755
    [("home", .dir 0o755 [("u", .dir 0o700
        [("Desktop", .dir 0o755 [("discord.desktop", .file 0o644 [35, 109, 105, 110, 101])])])])]

/-- A file system in which `/home/u/a/b.txt` holds the three bytes `old` and the
staging file exists. -/
def staleHome : Node :=
  .dir 0o755
    [("home", .dir 0o755 [("u", .dir 0o700
        [("a", .dir 0o755 [("b.txt", .file 0o600 [111, 108, 100])])])]),
     ("var", .dir 0o755 [("tmp", .dir 0o777 [("discord.tar.gz", .file 0o666 [31, 139, 8])])])]

/-- The archive of the extraction example: directory `a/`, then the file `a/b.txt`
with mode 0644 and the one byte `x`. -/
def fidelityArchive : TarStream :=
  { entries := [⟨⟨"a/", TypeDir, 0o755⟩, [], none⟩, ⟨⟨"a/b.txt", TypeReg, 0o644⟩, [120], none⟩],
    tail := none }

/-- An archive that holds a directory `Discord/` and nothing in it. -/
def emptyAppArchive : TarStream :=
  { entries := [⟨⟨"Discord/", TypeDir, 0o755⟩, [], none⟩], tail := none }

/-! ## lemmas: paths -/

theorem splitSlash_ne_nil (cs : List Char) : splitSlash cs ≠ [] := by
  cases cs with
  | nil => simp [splitSlash]
  | cons c cs =>
    unfold splitSlash
    split_ifs
    · simp
    · split <;> simp

theorem splitSlash_append (a b : List Char) :
    splitSlash (a ++ '/' :: b) = splitSlash a ++ splitSlash b := by
  induction a with
  | nil => simp [splitSlash]
  | cons c a ih =>
    by_cases hc : c = '/'
    · simp [splitSlash, hc, ih]
    · have h1 := splitSlash_ne_nil a
      cases hs : splitSlash a with
      | nil => exact absurd hs h1
      | cons x xs =>
        show splitSlash (c :: (a ++ '/' :: b)) = splitSlash (c :: a) ++ splitSlash b
        rw [splitSlash, splitSlash, if_neg hc, if_neg hc, ih, hs]
        rfl

theorem splitSlash_of_not_mem (c : List Char) (h : '/' ∉ c) : splitSlash c = [c] := by
  induction c with
  | nil => simp [splitSlash]
  | cons x c ih =>
    simp only [List.mem_cons, not_or] at h
    have hx : x ≠ '/' := fun e => h.1 e.symm
    simp [splitSlash, hx, ih h.2]

theorem not_mem_of_mem_splitSlash (cs x : List Char) (h : x ∈ splitSlash cs) : '/' ∉ x := by
  induction cs generalizing x with
  | nil => simp [splitSlash] at h; simp [h]
  | cons c cs ih =>
    by_cases hc : c = '/'
    · simp only [splitSlash, hc, if_true, List.mem_cons] at h
      rcases h with h | h
      · simp [h]
      · exact ih x h
    · simp only [splitSlash, hc, if_false] at h
      cases hs : splitSlash cs with
      | nil => exact absurd hs (splitSlash_ne_nil cs)
      | cons y ys =>
        rw [hs] at h ih
        simp only [List.mem_cons] at h
        rcases h with h | h
        · subst h
          have := ih y (by simp)
          simp only [List.mem_cons, not_or]
          exact ⟨fun e => hc e.symm, this⟩
        · exact ih x (by simp [h])

theorem components_append (a b : String) :
    components (a ++ "/" ++ b) = components a ++ components b := by
  simp [components, String.data_append, splitSlash_append]

theorem components_of_slashFree (n : String) (h : SlashFree n) : components n = [n] := by
  simp [components, splitSlash_of_not_mem n.data h]

theorem slashFree_of_mem_components (s x : String) (h : x ∈ components s) : SlashFree x := by
  simp only [components, List.mem_map] at h
  obtain ⟨y, hy, rfl⟩ := h
  exact not_mem_of_mem_splitSlash s.data y hy

theorem plainName_iff (s : String) :
    plainName s = true ↔ (s ≠ "" ∧ s ≠ "." ∧ s ≠ "..") ∧ SlashFree s := by
  simp [plainName, SlashFree]

theorem resolveStep_of_plain (st : List String) (n : String) (h : plainName n = true) :
    resolveStep st n = n :: st := by
  have := (plainName_iff n).1 h
  simp [resolveStep, this.1.1, this.1.2.1, this.1.2.2]

theorem cleanStep_of_plain (r : Bool) (st : List String) (n : String)
    (h : plainName n = true) : cleanStep r st n = n :: st := by
  have := (plainName_iff n).1 h
  simp [cleanStep, this.1.1, this.1.2.1, this.1.2.2]

theorem components_joinSlash (rs : List String) (h : ∀ x ∈ rs, SlashFree x) (hne : rs ≠ []) :
    components (joinSlash rs) = rs := by
  induction rs with
  | nil => exact absurd rfl hne
  | cons x rest ih =>
    cases rest with
    | nil => simpa [joinSlash] using components_of_slashFree x (h x (by simp))
    | cons y rest =>
      rw [joinSlash, components_append, components_of_slashFree x (h x (by simp)),
        ih (fun z hz => h z (List.mem_cons_of_mem _ hz)) (by simp)]
      rfl

theorem isRooted_append (a b : String) (h : a ≠ "") : isRooted (a ++ b) = isRooted a := by
  obtain ⟨cs⟩ := a
  cases cs with
  | nil => exact absurd rfl h
  | cons c cs => simp [isRooted, String.data_append]

theorem isRooted_joinSlash (x : String) (rest : List String) (h : x ≠ "") :
    isRooted (joinSlash (x :: rest)) = isRooted x := by
  cases rest with
  | nil => rfl
  | cons y rest => rw [joinSlash, String.append_assoc, isRooted_append x _ h]

theorem isRooted_of_slashFree (x : String) (h : SlashFree x) : isRooted x = false := by
  obtain ⟨cs⟩ := x
  cases cs with
  | nil => rfl
  | cons c cs =>
    have hc : c ≠ '/' := fun e => h (by simp [e])
    simp [isRooted, hc]

theorem joinSlash_ne_empty (x : String) (rest : List String) (h : x ≠ "") :
    joinSlash (x :: rest) ≠ "" := by
  obtain ⟨cs⟩ := x
  cases cs with
  | nil => exact absurd rfl h
  | cons c cs =>
    cases rest with
    | nil => simpa [joinSlash] using h
    | cons y rest =>
      intro e
      have := congrArg String.data e
      simp [joinSlash, String.data_append] at this

theorem resolveStep_empty (st : List String) : resolveStep st "" = st := by
  simp [resolveStep]

theorem resolveStep_dot (st : List String) : resolveStep st "." = st := by
  simp [resolveStep]

theorem isRooted_render (r : Bool) (rs : List String)
    (h : ∀ x ∈ rs, x ≠ "" ∧ SlashFree x) : isRooted (render r rs) = r := by
  cases r with
  | true => simp [render, isRooted, String.data_append]
  | false =>
    cases rs with
    | nil => simp [render, isRooted]
    | cons x rest =>
      have hx := h x (by simp)
      simp only [render, Bool.false_eq_true, if_false, List.cons_ne_nil]
      rw [isRooted_joinSlash x rest hx.1, isRooted_of_slashFree x hx.2]

theorem foldl_components_render (r : Bool) (rs init : List String)
    (h : ∀ x ∈ rs, SlashFree x) :
    (components (render r rs)).foldl resolveStep init = rs.foldl resolveStep init := by
  by_cases hrs : rs = []
  · subst hrs
    cases r <;> simp [render, joinSlash, components, splitSlash, resolveStep]
  · cases r with
    | true =>
      have : render true rs = "" ++ "/" ++ joinSlash rs := by simp [render]
      rw [this, components_append, components_joinSlash rs h hrs]
      simp [components, splitSlash, resolveStep]
    | false =>
      simp only [render, Bool.false_eq_true, if_false, hrs]
      rw [components_joinSlash rs h hrs]

theorem resolve_render (cwd : List String) (r : Bool) (rs : List String)
    (h : ∀ x ∈ rs, x ≠ "" ∧ SlashFree x) :
    resolve cwd (render r rs) =
      (rs.foldl resolveStep (if r then [] else cwd.reverse)).reverse := by
  unfold resolve
  rw [isRooted_render r rs h, foldl_components_render r rs _ (fun x hx => (h x hx).2)]

theorem cleanInv_nil (r : Bool) : CleanInv r [] := by
  intro x hx; simp at hx

theorem cleanStep_skip (r : Bool) (st : List String) (c : String) (h : c = "" ∨ c = ".") :
    cleanStep r st c = st := by
  simp [cleanStep, h]

theorem cleanStep_push (r : Bool) (st : List String) (c : String) (h1 : ¬ (c = "" ∨ c = "."))
    (h2 : c ≠ "..") : cleanStep r st c = c :: st := by
  simp [cleanStep, h1, h2]

theorem cleanStep_up_nil (r : Bool) :
    cleanStep r [] ".." = if r then [] else [".."] := by
  simp [cleanStep]

theorem cleanStep_up_cons (r : Bool) (top : String) (rest : List String) :
    cleanStep r (top :: rest) ".." =
      if top = ".." then (if r then top :: rest else ".." :: top :: rest) else rest := by
  simp [cleanStep]

theorem cleanInv_step (r : Bool) (st : List String) (c : String) (hinv : CleanInv r st)
    (hc : SlashFree c) : CleanInv r (cleanStep r st c) := by
  by_cases h1 : c = "" ∨ c = "."
  · rw [cleanStep_skip r st c h1]; exact hinv
  · by_cases h2 : c = ".."
    · subst h2
      have hdd : r = false → CleanInv r (".." :: st) := by
        intro hr x hx
        rcases List.mem_cons.1 hx with hx | hx
        · subst hx
          exact ⟨by decide, by decide, hc, by simp [hr]⟩
        · exact hinv x hx
      cases st with
      | nil =>
        rw [cleanStep_up_nil]
        cases r with
        | true => exact hinv
        | false => exact hdd rfl
      | cons top rest =>
        rw [cleanStep_up_cons]
        by_cases h3 : top = ".."
        · rw [if_pos h3]
          cases r with
          | true => exact hinv
          | false => exact hdd rfl
        · rw [if_neg h3]
          intro x hx
          exact hinv x (List.mem_cons_of_mem _ hx)
    · rw [cleanStep_push r st c h1 h2]
      intro x hx
      rcases List.mem_cons.1 hx with hx | hx
      · subst hx
        simp only [not_or] at h1
        exact ⟨h1.1, h1.2, hc, fun _ => h2⟩
      · exact hinv x hx

theorem cleanInv_foldl (r : Bool) (cs st : List String) (hinv : CleanInv r st)
    (hcs : ∀ c ∈ cs, SlashFree c) : CleanInv r (cs.foldl (cleanStep r) st) := by
  induction cs generalizing st with
  | nil => exact hinv
  | cons c cs ih =>
    exact ih _ (cleanInv_step r st c hinv (hcs c (by simp)))
      (fun x hx => hcs x (List.mem_cons_of_mem _ hx))

theorem resolve_cleanStep (r : Bool) (init st : List String) (c : String)
    (hinv : CleanInv r st) (hr : r = true → init = []) :
    (cleanStep r st c).reverse.foldl resolveStep init =
      resolveStep (st.reverse.foldl resolveStep init) c := by
  by_cases h1 : c = "" ∨ c = "."
  · rw [cleanStep_skip r st c h1]
    simp [resolveStep, h1]
  · by_cases h2 : c = ".."
    · subst h2
      cases st with
      | nil =>
        rw [cleanStep_up_nil]
        cases r with
        | true => simp [hr rfl, resolveStep]
        | false => simp
      | cons top rest =>
        have ht := hinv top (by simp)
        rw [cleanStep_up_cons]
        by_cases h3 : top = ".."
        · rw [if_pos h3]
          cases r with
          | true => exact absurd h3 (ht.2.2.2 rfl)
          | false => simp
        · rw [if_neg h3]
          simp only [List.reverse_cons, List.foldl_append, List.foldl_cons, List.foldl_nil]
          have : resolveStep (List.foldl resolveStep init rest.reverse) top
              = top :: List.foldl resolveStep init rest.reverse := by
            simp [resolveStep, ht.1, ht.2.1, h3]
          rw [this]
          simp [resolveStep]
    · rw [cleanStep_push r st c h1 h2]
      simp

theorem resolve_clean_foldl (r : Bool) (init cs st : List String)
    (hinv : CleanInv r st) (hcs : ∀ c ∈ cs, SlashFree c) (hr : r = true → init = []) :
    (cs.foldl (cleanStep r) st).reverse.foldl resolveStep init =
      cs.foldl resolveStep (st.reverse.foldl resolveStep init) := by
  induction cs generalizing st with
  | nil => rfl
  | cons c cs ih =>
    simp only [List.foldl_cons]
    rw [ih _ (cleanInv_step r st c hinv (hcs c (by simp)))
      (fun x hx => hcs x (List.mem_cons_of_mem _ hx)), resolve_cleanStep r init st c hinv hr]

theorem cleanElems_good (path : String) :
    ∀ x ∈ cleanElems path, x ≠ "" ∧ SlashFree x := by
  intro x hx
  have := cleanInv_foldl (isRooted path) (components path) [] (cleanInv_nil _)
    (slashFree_of_mem_components path) x (by simpa [cleanElems] using hx)
  exact ⟨this.1, this.2.2.1⟩

theorem Clean_eq_render (path : String) (h : path ≠ "") :
    filepath.Clean path = render (isRooted path) (cleanElems path) := by
  simp [filepath.Clean, h, cleanElems]

/-- Cleaning a path does not change what it denotes. -/
theorem resolve_Clean (cwd : List String) (path : String) (h : path ≠ "") :
    resolve cwd (filepath.Clean path) = resolve cwd path := by
  rw [Clean_eq_render path h, resolve_render cwd _ _ (cleanElems_good path)]
  unfold cleanElems resolve
  rw [resolve_clean_foldl (isRooted path) _ (components path) [] (cleanInv_nil _)
    (slashFree_of_mem_components path) (by intro hr; simp [hr])]
  rfl

theorem resolve_append_slash_append (cwd : List String) (a b : String) (h : a ≠ "") :
    resolve cwd (a ++ "/" ++ b) = resolveFrom (resolve cwd a) b := by
  unfold resolve resolveFrom
  rw [String.append_assoc, isRooted_append a _ h, ← String.append_assoc, components_append,
    List.foldl_append, List.reverse_reverse]

theorem resolveFrom_empty (base : List String) : resolveFrom base "" = base := by
  simp [resolveFrom, components, splitSlash, resolveStep]

theorem resolve_append_slash (cwd : List String) (a : String) (h : a ≠ "") :
    resolve cwd (a ++ "/") = resolve cwd a := by
  have := resolve_append_slash_append cwd a "" h
  simpa [resolveFrom_empty] using this

theorem resolveFrom_append (base : List String) (a b : String) :
    resolveFrom base (a ++ "/" ++ b) = resolveFrom (resolveFrom base a) b := by
  unfold resolveFrom
  rw [components_append, List.foldl_append, List.reverse_reverse]

theorem resolveFrom_plain (base : List String) (n : String) (h : plainName n = true) :
    resolveFrom base n = base ++ [n] := by
  unfold resolveFrom
  rw [components_of_slashFree n ((plainName_iff n).1 h).2]
  simp [resolveStep_of_plain _ n h]

theorem render_ne_empty (r : Bool) (rs : List String) (h : ∀ x ∈ rs, x ≠ "" ∧ SlashFree x) :
    render r rs ≠ "" := by
  cases r with
  | true =>
    intro e
    have := congrArg String.data e
    simp [render, String.data_append] at this
  | false =>
    cases rs with
    | nil => simp [render]
    | cons x rest =>
      simp only [render, Bool.false_eq_true, if_false, List.cons_ne_nil]
      exact joinSlash_ne_empty x rest (h x (by simp)).1

theorem Clean_ne_empty (path : String) : filepath.Clean path ≠ "" := by
  by_cases h : path = ""
  · simp [filepath.Clean, h]
  · rw [Clean_eq_render path h]
    exact render_ne_empty _ _ (cleanElems_good path)

theorem Join_cons (home : String) (rest : List String) (h : home ≠ "") :
    filepath.Join (home :: rest) = filepath.Clean (joinSlash (home :: rest)) := by
  simp [filepath.Join, h]

theorem Join_ne_empty (home : String) (rest : List String) (h : home ≠ "") :
    filepath.Join (home :: rest) ≠ "" := by
  rw [Join_cons home rest h]
  exact Clean_ne_empty _

/-- The position of a joined path: the rest followed from the first element. -/
theorem resolve_Join (cwd : List String) (home : String) (y : String) (rest : List String)
    (h : home ≠ "") :
    resolve cwd (filepath.Join (home :: y :: rest)) =
      resolveFrom (resolve cwd home) (joinSlash (y :: rest)) := by
  rw [Join_cons home _ h, resolve_Clean cwd _ (joinSlash_ne_empty home _ h), joinSlash,
    resolve_append_slash_append cwd home _ h]

theorem resolve_Join_plain (cwd : List String) (home n : String) (h : home ≠ "")
    (hn : plainName n = true) :
    resolve cwd (filepath.Join [home, n]) = resolve cwd home ++ [n] := by
  rw [resolve_Join cwd home n [] h]
  exact resolveFrom_plain _ n hn

theorem resolve_Join_child (cwd : List String) (dest parent n : String) (h : dest ≠ "")
    (hn : plainName n = true) :
    resolve cwd (filepath.Join [dest, parent ++ "/" ++ n]) =
      resolve cwd (filepath.Join [dest, parent]) ++ [n] := by
  rw [resolve_Join cwd dest _ [] h, resolve_Join cwd dest _ [] h]
  simp only [joinSlash]
  rw [resolveFrom_append, resolveFrom_plain _ n hn]

/-! ### `filepath.Dir` -/

theorem dropWhile_append_of_all {α : Type} (p : α → Bool) (l1 l2 : List α)
    (h : ∀ x ∈ l1, p x = true) : (l1 ++ l2).dropWhile p = l2.dropWhile p := by
  induction l1 with
  | nil => rfl
  | cons a l1 ih =>
    simp only [List.cons_append, List.dropWhile_cons, h a (by simp), if_true]
    exact ih (fun x hx => h x (List.mem_cons_of_mem _ hx))

theorem dirPart_append (X n : List Char) (h : '/' ∉ n) :
    dirPart (X ++ '/' :: n) = X ++ ['/'] := by
  unfold dirPart
  rw [List.reverse_append, List.reverse_cons, List.append_assoc,
    dropWhile_append_of_all _ n.reverse _ (by
      intro x hx
      have : x ≠ '/' := fun e => h (by simpa [e] using hx)
      simp [this])]
  simp

theorem dirPart_of_not_mem (n : List Char) (h : '/' ∉ n) : dirPart n = [] := by
  unfold dirPart
  have := dropWhile_append_of_all (fun c => c != '/') n.reverse [] (by
      intro x hx
      have : x ≠ '/' := fun e => h (by simpa [e] using hx)
      simp [this])
  simp only [List.append_nil] at this
  rw [this]
  rfl

theorem joinSlash_append_singleton (rs : List String) (n : String) (h : rs ≠ []) :
    joinSlash (rs ++ [n]) = joinSlash rs ++ "/" ++ n := by
  induction rs with
  | nil => exact absurd rfl h
  | cons x rest ih =>
    cases rest with
    | nil => rfl
    | cons y rest =>
      have := ih (by simp)
      show x ++ "/" ++ joinSlash ((y :: rest) ++ [n]) = x ++ "/" ++ joinSlash (y :: rest) ++ "/" ++ n
      rw [this]
      simp [String.append_assoc]

/-- The directory of a cleaned path that ends in a plain name is the cleaned path
without that name. -/
theorem resolve_Dir_render (cwd : List String) (r : Bool) (rs : List String) (n : String)
    (h : ∀ x ∈ rs, x ≠ "" ∧ SlashFree x) (hn : SlashFree n) :
    resolve cwd (filepath.Dir (render r (rs ++ [n]))) = resolve cwd (render r rs) := by
  by_cases hrs : rs = []
  · subst hrs
    cases r with
    | true =>
      have : dirPart (render true ([] ++ [n])).data = ['/'] := by
        have := dirPart_append [] n.data hn
        simpa [render, joinSlash, String.data_append] using this
      unfold filepath.Dir
      rw [this]
      have e : filepath.Clean ⟨['/']⟩ = render true [] := by decide
      rw [e]
    | false =>
      have : dirPart (render false ([] ++ [n])).data = [] := by
        simpa [render, joinSlash] using dirPart_of_not_mem n.data hn
      unfold filepath.Dir
      rw [this]
      have e : filepath.Clean ⟨[]⟩ = render false [] := by decide
      rw [e]
  · have hX : render r rs ≠ "" := render_ne_empty r rs h
    have hd : (render r (rs ++ [n])).data = (render r rs).data ++ '/' :: n.data := by
      cases r <;>
        simp [render, hrs, joinSlash_append_singleton rs n hrs, String.data_append]
    have : dirPart (render r (rs ++ [n])).data = (render r rs ++ "/").data := by
      rw [hd, dirPart_append _ _ hn]
      simp [String.data_append]
    unfold filepath.Dir
    rw [this]
    have hne : (render r rs ++ "/") ≠ "" := by
      intro e
      have := congrArg String.data e
      simp [String.data_append] at this
    rw [resolve_Clean cwd _ hne, resolve_append_slash cwd _ hX]

theorem cleanElems_child (s n : String) (hn : plainName n = true) :
    cleanElems (s ++ "/" ++ n) =
      ((components s).foldl (cleanStep (isRooted (s ++ "/" ++ n))) []).reverse ++ [n] := by
  unfold cleanElems
  rw [components_append, components_of_slashFree n ((plainName_iff n).1 hn).2,
    List.foldl_append]
  simp [cleanStep_of_plain _ _ n hn]

theorem resolve_Dir_Join_child (cwd : List String) (dest parent n : String) (h : dest ≠ "")
    (hn : plainName n = true) :
    resolve cwd (filepath.Dir (filepath.Join [dest, parent ++ "/" ++ n])) =
      resolve cwd (filepath.Join [dest, parent]) := by
  have hs : dest ++ "/" ++ parent ≠ "" := by
    have := joinSlash_ne_empty dest [parent] h
    simpa [joinSlash] using this
  have hr : isRooted (dest ++ "/" ++ parent ++ "/" ++ n) = isRooted (dest ++ "/" ++ parent) := by
    rw [String.append_assoc (dest ++ "/" ++ parent), isRooted_append _ _ hs]
  have e1 : filepath.Join [dest, parent ++ "/" ++ n]
      = render (isRooted (dest ++ "/" ++ parent)) (cleanElems (dest ++ "/" ++ parent) ++ [n]) := by
    rw [Join_cons dest _ h]
    have : joinSlash [dest, parent ++ "/" ++ n] = dest ++ "/" ++ parent ++ "/" ++ n := by
      simp [joinSlash, String.append_assoc]
    rw [this, Clean_eq_render _ (by
      intro e
      have := congrArg String.data e
      simp [String.data_append] at this), cleanElems_child _ n hn, hr]
    rfl
  have e2 : filepath.Join [dest, parent]
      = render (isRooted (dest ++ "/" ++ parent)) (cleanElems (dest ++ "/" ++ parent)) := by
    rw [Join_cons dest _ h]
    have : joinSlash [dest, parent] = dest ++ "/" ++ parent := by simp [joinSlash]
    rw [this, Clean_eq_render _ hs]
  rw [e1, e2]
  exact resolve_Dir_render cwd _ _ n (cleanElems_good _) ((plainName_iff n).1 hn).2

/-! ## lemmas: the file tree -/

theorem getChild_setChild_same (c : String) (m : Node) (ch : List (String × Node)) :
    getChild c (setChild c m ch) = some m := by
  induction ch with
  | nil => simp [setChild, getChild]
  | cons kv rest ih =>
    obtain ⟨k, x⟩ := kv
    by_cases h : k = c
    · simp [setChild, getChild, h]
    · simp [setChild, getChild, h, ih]

theorem getChild_setChild_ne (c d : String) (m : Node) (ch : List (String × Node))
    (h : d ≠ c) : getChild d (setChild c m ch) = getChild d ch := by
  induction ch with
  | nil => simp [setChild, getChild, Ne.symm h]
  | cons kv rest ih =>
    obtain ⟨k, x⟩ := kv
    by_cases hk : k = c
    · subst hk
      simp [setChild, getChild, Ne.symm h]
    · by_cases hd : k = d
      · subst hd
        simp [setChild, getChild, h]
      · simp [setChild, getChild, hk, hd, ih]

theorem getChild_delChild_same (c : String) (ch : List (String × Node)) :
    getChild c (delChild c ch) = none := by
  induction ch with
  | nil => simp [delChild, getChild]
  | cons kv rest ih =>
    obtain ⟨k, x⟩ := kv
    by_cases h : k = c
    · simp [delChild, h, ih]
    · simp [delChild, getChild, h, ih]

theorem getChild_delChild_ne (c d : String) (ch : List (String × Node)) (h : d ≠ c) :
    getChild d (delChild c ch) = getChild d ch := by
  induction ch with
  | nil => simp [delChild, getChild]
  | cons kv rest ih =>
    obtain ⟨k, x⟩ := kv
    by_cases hk : k = c
    · subst hk
      simp [delChild, getChild, Ne.symm h, ih]
    · by_cases hd : k = d
      · subst hd
        simp [delChild, getChild, h]
      · simp [delChild, getChild, hk, hd, ih]

theorem setChild_self (c : String) (m : Node) (ch : List (String × Node))
    (h : getChild c ch = some m) : setChild c m ch = ch := by
  induction ch with
  | nil => simp [getChild] at h
  | cons kv rest ih =>
    obtain ⟨k, x⟩ := kv
    by_cases hk : k = c
    · simp only [getChild, hk, if_true, Option.some.injEq] at h
      simp [setChild, hk, h]
    · simp only [getChild, hk, if_false] at h
      simp [setChild, hk, ih h]

theorem findOpt_none (path : List String) : findOpt none path = none := by
  cases path <;> rfl

theorem stat_dir_cons (p : Nat) (ch : List (String × Node)) (c : String) (t : List String) :
    (Node.dir p ch).stat (c :: t) = statOpt (getChild c ch) t := by
  unfold Node.stat
  rw [Node.find]
  cases getChild c ch with
  | none => rfl
  | some m => rfl

theorem stat_file_cons (p : Nat) (d : List Nat) (c : String) (t : List String) :
    (Node.file p d).stat (c :: t) = .error .ENOTDIR := rfl

theorem find_dir_cons (p : Nat) (ch : List (String × Node)) (c : String) (t : List String) :
    (Node.dir p ch).find (c :: t) =
      match getChild c ch with
      | none => .error .ENOENT
      | some m => m.find t := by
  rw [Node.find]

theorem findOpt_of_find (n m : Node) (path : List String) (h : n.find path = .ok m) :
    findOpt (some n) path = some m := by
  induction path generalizing n with
  | nil => simp only [Node.find, Except.ok.injEq] at h; simp [findOpt, h]
  | cons c rest ih =>
    cases n with
    | file p d => simp [Node.find] at h
    | dir p ch =>
      rw [find_dir_cons] at h
      cases hc : getChild c ch with
      | none => simp [hc] at h
      | some x =>
        rw [hc] at h
        simp only [findOpt, hc]
        exact ih x h

theorem find_of_findOpt (n m : Node) (path : List String)
    (h : findOpt (some n) path = some m) : n.find path = .ok m := by
  induction path generalizing n with
  | nil => simp only [findOpt, Option.some.injEq] at h; simp [Node.find, h]
  | cons c rest ih =>
    cases n with
    | file p d => simp [findOpt] at h
    | dir p ch =>
      rw [find_dir_cons]
      simp only [findOpt] at h
      cases hc : getChild c ch with
      | none => rw [hc, findOpt_none] at h; simp at h
      | some x =>
        rw [hc] at h
        exact ih x h

theorem findOpt_of_stat_error (n : Node) (path : List String) (e : Errno)
    (h : n.stat path = .error e) : findOpt (some n) path = none := by
  cases hf : findOpt (some n) path with
  | none => rfl
  | some m =>
    have := find_of_findOpt n m path hf
    simp [Node.stat, this] at h

theorem stat_of_find (n m : Node) (path : List String) (h : n.find path = .ok m) :
    n.stat path = .ok m.info := by
  simp [Node.stat, h]

theorem find_of_stat_dir (n : Node) (path : List String) (p : Nat)
    (h : n.stat path = .ok (.dir p)) : ∃ ch, n.find path = .ok (.dir p ch) := by
  unfold Node.stat at h
  cases hf : n.find path with
  | error e => simp [hf] at h
  | ok m =>
    rw [hf] at h
    cases m with
    | file q d => simp [Node.info] at h
    | dir q ch =>
      simp only [Node.info, Except.ok.injEq, Info.dir.injEq] at h
      exact ⟨ch, by rw [h]⟩

theorem find_append (n : Node) (a b : List String) :
    n.find (a ++ b) =
      match n.find a with
      | .error e => .error e
      | .ok m => m.find b := by
  induction a generalizing n with
  | nil => cases n <;> simp [Node.find]
  | cons c rest ih =>
    cases n with
    | file p d =>
      cases b <;> simp [Node.find]
    | dir p ch =>
      simp only [List.cons_append, find_dir_cons]
      cases getChild c ch with
      | none => rfl
      | some m => exact ih m

/-- What `alterAt` hands to `f` is the node at the path, and what `f` returns is the
node there afterwards. -/
theorem alterAt_spec (f : Option Node → Except Errno (Option Node)) (q : List String)
    (o o' : Option Node) (h : alterAt f o q = .ok o') :
    f (findOpt o q) = .ok (findOpt o' q) := by
  induction q generalizing o o' with
  | nil => simpa [alterAt, findOpt] using h
  | cons c rest ih =>
    cases o with
    | none => simp [alterAt] at h
    | some n =>
      cases n with
      | file p d => simp [alterAt] at h
      | dir p ch =>
        simp only [alterAt] at h
        cases hr : alterAt f (getChild c ch) rest with
        | error e => simp [hr] at h
        | ok r =>
          have := ih _ _ hr
          cases r with
          | none =>
            simp only [hr, Except.ok.injEq] at h
            subst h
            simp only [findOpt, getChild_delChild_same]
            simpa [findOpt_none] using this
          | some m =>
            simp only [hr, Except.ok.injEq] at h
            subst h
            simpa only [findOpt, getChild_setChild_same] using this

theorem alterAt_some (f : Option Node → Except Errno (Option Node)) (n : Node) (c : String)
    (rest : List String) (o' : Option Node) (h : alterAt f (some n) (c :: rest) = .ok o') :
    ∃ m, o' = some m := by
  cases n with
  | file p d => simp [alterAt] at h
  | dir p ch =>
    simp only [alterAt] at h
    cases hr : alterAt f (getChild c ch) rest with
    | error e => simp [hr] at h
    | ok r =>
      cases r with
      | none => simp only [hr, Except.ok.injEq] at h; exact ⟨_, h.symm⟩
      | some m => simp only [hr, Except.ok.injEq] at h; exact ⟨_, h.symm⟩

/-- The paths that do not pass through the altered one look the same afterwards. -/
theorem alterAt_frame (f : Option Node → Except Errno (Option Node)) (q t : List String)
    (o o' : Option Node) (h : alterAt f o q = .ok o') (hq : ¬ q <+: t) :
    statOpt o' t = statOpt o t := by
  induction q generalizing o o' t with
  | nil => exact absurd List.nil_prefix hq
  | cons c rest ih =>
    cases o with
    | none => simp [alterAt] at h
    | some n =>
      cases n with
      | file p d => simp [alterAt] at h
      | dir p ch =>
        simp only [alterAt] at h
        cases hr : alterAt f (getChild c ch) rest with
        | error e => simp [hr] at h
        | ok r =>
          cases t with
          | nil =>
            cases r <;> (simp only [hr, Except.ok.injEq] at h; subst h; rfl)
          | cons d t' =>
            by_cases hd : d = c
            · subst hd
              have hq' : ¬ rest <+: t' := fun hp => hq (by simpa using hp)
              have := ih t' _ _ hr hq'
              cases r with
              | none =>
                simp only [hr, Except.ok.injEq] at h
                subst h
                simp only [statOpt, stat_dir_cons, getChild_delChild_same]
                exact this
              | some m =>
                simp only [hr, Except.ok.injEq] at h
                subst h
                simp only [statOpt, stat_dir_cons, getChild_setChild_same]
                exact this
            · cases r with
              | none =>
                simp only [hr, Except.ok.injEq] at h
                subst h
                simp only [statOpt, stat_dir_cons, getChild_delChild_ne c d ch hd]
              | some m =>
                simp only [hr, Except.ok.injEq] at h
                subst h
                simp only [statOpt, stat_dir_cons, getChild_setChild_ne c d m ch hd]

theorem alter_eq_ok (f : Option Node → Except Errno (Option Node)) (n m : Node)
    (q : List String) (h : n.alter f q = .ok m) : alterAt f (some n) q = .ok (some m) := by
  unfold Node.alter at h
  cases hr : alterAt f (some n) q with
  | error e => simp [hr] at h
  | ok r =>
    cases r with
    | none => simp [hr] at h
    | some x => simp only [hr, Except.ok.injEq] at h; rw [h]

theorem alter_spec (f : Option Node → Except Errno (Option Node)) (n m : Node)
    (q : List String) (h : n.alter f q = .ok m) :
    f (findOpt (some n) q) = .ok (findOpt (some m) q) :=
  alterAt_spec f q _ _ (alter_eq_ok f n m q h)

theorem alter_frame (f : Option Node → Except Errno (Option Node)) (n m : Node)
    (q t : List String) (h : n.alter f q = .ok m) (hq : ¬ q <+: t) :
    m.stat t = n.stat t :=
  alterAt_frame f q t _ _ (alter_eq_ok f n m q h) hq

/-- An alteration whose parent directory exists and whose `f` accepts goes through. -/
theorem alterAt_ok (f : Option Node → Except Errno (Option Node)) (init : List String)
    (c : String) (o : Option Node) (p : Nat) (ch : List (String × Node)) (y : Option Node)
    (hd : findOpt o init = some (.dir p ch)) (hf : f (getChild c ch) = .ok y) :
    ∃ o', alterAt f o (init ++ [c]) = .ok o' := by
  induction init generalizing o with
  | nil =>
    simp only [findOpt] at hd
    subst hd
    simp only [List.nil_append, alterAt, hf]
    cases y <;> exact ⟨_, rfl⟩
  | cons d rest ih =>
    cases o with
    | none => simp [findOpt] at hd
    | some n =>
      cases n with
      | file q dd => simp [findOpt] at hd
      | dir q kids =>
        simp only [findOpt] at hd
        obtain ⟨o', ho'⟩ := ih _ hd
        show ∃ o', alterAt f (some (Node.dir q kids)) (d :: (rest ++ [c])) = .ok o'
        rw [alterAt, ho']
        cases o' <;> exact ⟨_, rfl⟩

theorem alter_ok (f : Option Node → Except Errno (Option Node)) (n : Node)
    (init : List String) (c : String) (p : Nat) (ch : List (String × Node)) (y : Option Node)
    (hd : n.find init = .ok (.dir p ch)) (hf : f (getChild c ch) = .ok y) :
    ∃ m, n.alter f (init ++ [c]) = .ok m := by
  obtain ⟨o', ho'⟩ := alterAt_ok f init c (some n) p ch y (findOpt_of_find n _ init hd) hf
  have hne : init ++ [c] = (init ++ [c]).head (by simp) :: (init ++ [c]).tail := by
    simp
  obtain ⟨m, hm⟩ : ∃ m, o' = some m := by
    rw [hne] at ho'
    exact alterAt_some f n _ _ o' ho'
  subst hm
  exact ⟨m, by simp [Node.alter, ho']⟩

/-- A path that leads to a directory passes only through directories. -/
theorem find_prefix_dir (n : Node) (q t : List String) (p : Nat) (ch : List (String × Node))
    (hq : q <+: t) (h : n.find t = .ok (.dir p ch)) :
    ∃ p' ch', n.find q = .ok (.dir p' ch') := by
  obtain ⟨r, rfl⟩ := hq
  rw [find_append] at h
  cases hf : n.find q with
  | error e => simp [hf] at h
  | ok m =>
    rw [hf] at h
    cases m with
    | dir p' ch' => exact ⟨p', ch', rfl⟩
    | file p' d =>
      cases r with
      | nil => simp [Node.find] at h
      | cons c r => simp [Node.find] at h

theorem stat_prefix_ok (n : Node) (q t : List String) (i : Info)
    (hq : q <+: t) (h : n.stat t = .ok i) : ∃ j, n.stat q = .ok j := by
  obtain ⟨r, rfl⟩ := hq
  unfold Node.stat at h ⊢
  rw [find_append] at h
  cases hf : n.find q with
  | error e => simp [hf] at h
  | ok m => exact ⟨_, rfl⟩

/-- Writing a file leaves every directory a directory. -/
theorem alter_openWrite_dir (tr : Bool) (perm : Nat) (data : List Nat) (n m : Node)
    (q t : List String) (p : Nat) (h : n.alter (openWrite tr perm data) q = .ok m)
    (ht : n.stat t = .ok (.dir p)) : m.stat t = .ok (.dir p) := by
  by_cases hq : q <+: t
  · obtain ⟨ch, hch⟩ := find_of_stat_dir n t p ht
    obtain ⟨p', ch', hd⟩ := find_prefix_dir n q t p ch hq hch
    have := alter_spec _ n m q h
    rw [findOpt_of_find n _ q hd] at this
    simp [openWrite] at this
  · rw [alter_frame _ n m q t h hq, ht]

/-- Writing a file at a path that did not exist leaves every existing file as it is. -/
theorem alter_frame_of_absent (f : Option Node → Except Errno (Option Node)) (n m : Node)
    (q t : List String) (e : Errno) (i : Info) (h : n.alter f q = .ok m)
    (hq : n.stat q = .error e) (ht : n.stat t = .ok i) : m.stat t = .ok i := by
  have hnp : ¬ q <+: t := by
    intro hp
    obtain ⟨j, hj⟩ := stat_prefix_ok n q t i hp ht
    rw [hj] at hq
    cases hq
  rw [alter_frame f n m q t h hnp, ht]

/-! ### `mkdirAll` -/

theorem mkdirAll_fresh (perm : Nat) (path : List String) (o : Option Node)
    (h : statOpt o path = .error .ENOENT) :
    ∃ m, (orNew perm o).mkdirAll perm path = .ok m ∧ m.find path = .ok (.dir perm []) := by
  induction path generalizing o with
  | nil =>
    cases o with
    | none => exact ⟨_, rfl, rfl⟩
    | some n => simp [statOpt, Node.stat, Node.find] at h
  | cons c rest ih =>
    cases o with
    | none =>
      obtain ⟨m, hm, hf⟩ := ih none rfl
      refine ⟨.dir perm (setChild c m []), ?_, ?_⟩
      · show (Node.dir perm []).mkdirAll perm (c :: rest) = _
        rw [Node.mkdirAll]
        simp only [getChild, hm]
      · rw [find_dir_cons, getChild_setChild_same]
        exact hf
    | some n =>
      cases n with
      | file p d => simp [statOpt, stat_file_cons] at h
      | dir p ch =>
        simp only [statOpt, stat_dir_cons] at h
        obtain ⟨m, hm, hf⟩ := ih _ h
        refine ⟨.dir p (setChild c m ch), ?_, ?_⟩
        · show (Node.dir p ch).mkdirAll perm (c :: rest) = _
          rw [Node.mkdirAll]
          simp only [hm]
        · rw [find_dir_cons, getChild_setChild_same]
          exact hf

theorem mkdirAll_of_dir (perm : Nat) (path : List String) (n : Node) (p : Nat)
    (ch : List (String × Node)) (h : n.find path = .ok (.dir p ch)) :
    n.mkdirAll perm path = .ok n := by
  induction path generalizing n with
  | nil =>
    simp only [Node.find, Except.ok.injEq] at h
    subst h
    rfl
  | cons c rest ih =>
    cases n with
    | file q d => simp [Node.find] at h
    | dir q kids =>
      rw [find_dir_cons] at h
      cases hc : getChild c kids with
      | none => simp [hc] at h
      | some x =>
        rw [hc] at h
        rw [Node.mkdirAll]
        simp only [hc, orNew, ih x h, setChild_self c x kids hc]

/-! ## the progress counter -/

theorem wrapInt64_of_fits (x : Int) (h0 : 0 ≤ x) (h1 : x < 2 ^ 63) : wrapInt64 x = x := by
  unfold wrapInt64
  omega

theorem writeAll_written (chunks : List (List Nat)) (pw : progressWriter)
    (h0 : 0 ≤ pw.written) (h : pw.written + (totalBytes chunks : Int) < 2 ^ 63) :
    (writeAll chunks pw).written = pw.written + (totalBytes chunks : Int) := by
  induction chunks generalizing pw with
  | nil => simp [writeAll, totalBytes]
  | cons p ps ih =>
    have htot : (totalBytes (p :: ps) : Int) = (p.length : Int) + (totalBytes ps : Int) := by
      simp [totalBytes]
    rw [htot] at h ⊢
    have hw : ((pw.Write p).1).written = pw.written + (p.length : Int) := by
      simp only [progressWriter.Write]
      exact wrapInt64_of_fits _ (by omega) (by omega)
    have := ih (pw.Write p).1 (by rw [hw]; omega) (by rw [hw]; omega)
    show (writeAll ps (pw.Write p).1).written = _
    rw [this, hw]
    omega

theorem totalBytes_take_le (chunks : List (List Nat)) (k : Nat) :
    totalBytes (chunks.take k) ≤ totalBytes chunks := by
  induction chunks generalizing k with
  | nil => simp [totalBytes]
  | cons p ps ih =>
    cases k with
    | zero => simp [totalBytes]
    | succ k =>
      have := ih k
      simp only [totalBytes, List.take_succ_cons, List.map_cons, List.sum_cons] at this ⊢
      omega

theorem totalBytes_take_mono (chunks : List (List Nat)) (k : Nat) :
    totalBytes (chunks.take k) ≤ totalBytes (chunks.take (k + 1)) := by
  induction chunks generalizing k with
  | nil => simp [totalBytes]
  | cons p ps ih =>
    cases k with
    | zero => simp [totalBytes]
    | succ k =>
      have := ih k
      simp only [totalBytes, List.take_succ_cons, List.map_cons, List.sum_cons] at this ⊢
      omega

theorem copyBody_written (chunks : List (List Nat)) (pw : progressWriter) (out : Console)
    (acc : List Nat) (h0 : 0 ≤ pw.written)
    (h : pw.written + (totalBytes chunks : Int) < 2 ^ 63) :
    (copyBody chunks pw out acc).1.written = pw.written + (totalBytes chunks : Int) ∧
      (copyBody chunks pw out acc).2.2.1 = acc ++ chunks.flatten ∧
      (copyBody chunks pw out acc).2.2.2 = none := by
  induction chunks generalizing pw out acc with
  | nil => simp [copyBody, totalBytes]
  | cons p ps ih =>
    have htot : (totalBytes (p :: ps) : Int) = (p.length : Int) + (totalBytes ps : Int) := by
      simp [totalBytes]
    rw [htot] at h ⊢
    by_cases hp : p = []
    · subst hp
      simp only [copyBody, List.isEmpty_nil, if_true]
      simpa using ih pw out acc h0 (by simpa using h)
    · have hne : p.isEmpty = false := by cases p <;> simp_all
      have hw : ((pw.Write p).1).written = pw.written + (p.length : Int) := by
        simp only [progressWriter.Write]
        exact wrapInt64_of_fits _ (by omega) (by omega)
      simp only [copyBody, hne, Bool.false_eq_true, if_false]
      have := ih (pw.Write p).1 (out ++ [[(pw.Write p).2.1]]) (acc ++ p)
        (by rw [hw]; omega) (by rw [hw]; omega)
      rw [hw] at this
      simp only [progressWriter.Write] at this ⊢
      refine ⟨by rw [this.1]; omega, by rw [this.2.1]; simp, this.2.2⟩

/-- C2. Byte-count accuracy of `progressWriter`: starting from the zero value, after
`Write` has been called with the chunks in order, `written` is the total number of
bytes whatever the chunking (as long as the total fits in `int64`); every `Write`
returns `(len(p), nil)`; `written` does not decrease from one call to the next; and
the loop of `io.Copy` in `downloadFile` ends with the same count. -/
theorem progressWriter_byte_count (chunks : List (List Nat))
    (hfit : (totalBytes chunks : Int) < 2 ^ 63) :
    (writeAll chunks freshWriter).written = (totalBytes chunks : Int) ∧
    (∀ (pw : progressWriter) (p : List Nat), (pw.Write p).2.2 = (p.length, none)) ∧
    (∀ k : Nat, (writeAll (chunks.take k) freshWriter).written ≤
        (writeAll (chunks.take (k + 1)) freshWriter).written) ∧
    (∀ out : Console, (copyBody chunks freshWriter out []).1.written
        = (totalBytes chunks : Int)) := by
  have hz : (0 : Int) ≤ freshWriter.written := by simp [freshWriter]
  have hzz : freshWriter.written = 0 := rfl
  refine ⟨?_, fun _ _ => rfl, ?_, ?_⟩
  · rw [writeAll_written chunks freshWriter hz (by rw [hzz]; omega), hzz]; omega
  · intro k
    have h1 := totalBytes_take_le chunks k
    have h2 := totalBytes_take_le chunks (k + 1)
    have h3 := totalBytes_take_mono chunks k
    rw [writeAll_written _ freshWriter hz (by rw [hzz]; omega),
      writeAll_written _ freshWriter hz (by rw [hzz]; omega)]
    omega
  · intro out
    rw [(copyBody_written chunks freshWriter out [] hz (by rw [hzz]; omega)).1, hzz]; omega

/-- C2, witness: a download of 5 bytes delivered as 2 + 0 + 3. -/
theorem progressWriter_byte_count_witness :
    (writeAll [[1, 2], [], [3, 4, 5]] freshWriter).written = 5 := by
  have h := (progressWriter_byte_count [[1, 2], [], [3, 4, 5]] (by decide)).1
  simpa [totalBytes] using h

/-! ## the loop that locates the extracted directory -/

theorem name_ne_empty_of_qualifies (tbl : Char → Char) (e : DirEntry)
    (h : qualifies tbl e = true) : e.name ≠ "" := by
  intro hn
  obtain ⟨name, isDir⟩ := e
  simp only at hn
  subst hn
  have : strings.Contains (strings.ToLower tbl "") "discord" = false := by
    simp only [strings.ToLower, List.map_nil]
    decide
  simp [qualifies, this] at h

theorem Join_pair_ne_empty (home name : String) (h : name ≠ "") :
    filepath.Join [home, name] ≠ "" := by
  by_cases hh : home = ""
  · subst hh
    simp only [filepath.Join, if_true, h, if_false]
    exact Clean_ne_empty _
  · exact Join_ne_empty home _ hh

theorem findExtractedDir_first (tbl : Char → Char) (homeDir : String)
    (pre post : List DirEntry) (e : DirEntry)
    (he : qualifies tbl e = true) (hpre : ∀ x ∈ pre, qualifies tbl x = false) :
    findExtractedDir tbl homeDir (pre ++ e :: post) = filepath.Join [homeDir, e.name] := by
  induction pre with
  | nil => simp [findExtractedDir, he]
  | cons x pre ih =>
    have hx := hpre x (by simp)
    simp only [List.cons_append, findExtractedDir, hx, Bool.false_eq_true, if_false]
    exact ih (fun y hy => hpre y (List.mem_cons_of_mem _ hy))

theorem findExtractedDir_none (tbl : Char → Char) (homeDir : String)
    (entries : List DirEntry) (h : ∀ x ∈ entries, qualifies tbl x = false) :
    findExtractedDir tbl homeDir entries = "" := by
  induction entries with
  | nil => rfl
  | cons x rest ih =>
    simp only [findExtractedDir, h x (by simp), Bool.false_eq_true, if_false]
    exact ih (fun y hy => h y (List.mem_cons_of_mem _ hy))

theorem findExtractedDir_mem (tbl : Char → Char) (homeDir : String)
    (entries : List DirEntry) (h : findExtractedDir tbl homeDir entries ≠ "") :
    ∃ e ∈ entries, qualifies tbl e = true ∧
      findExtractedDir tbl homeDir entries = filepath.Join [homeDir, e.name] := by
  induction entries with
  | nil => exact absurd rfl h
  | cons x rest ih =>
    by_cases hx : qualifies tbl x = true
    · exact ⟨x, by simp, hx, by simp [findExtractedDir, hx]⟩
    · simp only [findExtractedDir, hx, if_false] at h ⊢
      obtain ⟨e, he, hq, hr⟩ := ih h
      exact ⟨e, List.mem_cons_of_mem _ he, hq, hr⟩

theorem runScript_not_found (tbl : Char → Char) (o : Script) (home : String)
    (entries : List DirEntry)
    (h1 : o.home = .ok home) (h2 : o.clear = none) (h3 : o.download = none)
    (h4 : o.extract = none) (h5 : o.listing = .ok entries)
    (h6 : findExtractedDir tbl home entries = "") :
    runScript tbl o =
      { calls := [.Current, .removeDirIfExists, .downloadFile, .extractTarGz, .ReadDir],
        out := [["=== Discord Installer ==="],
                ["Error: Could not find extracted Discord folder."]] } := by
  simp [runScript, mainWith, scripted, Trace.log, h1, h2, h3, h4, h5, h6]

/-- C1. Install Locator selection (the loop in `main`): for every case table of
package `unicode`, every home directory and every listing, the located path is
`filepath.Join(homeDir, name)` of the first entry in listing order that is a
directory and whose lower-cased name (`strings.ToLower`) contains "discord", and it
is not the empty string `main` takes for "not found"; whatever is located comes from
an entry that passes the test, so files and directories without the substring are
never selected; and when no entry passes, the located path is empty and every run of
`main` that gets this listing stops with the not-found diagnostic without calling
`os.Rename` or `createDesktopFile`. -/
theorem locator_selects_first_match (tbl : Char → Char) (homeDir : String)
    (entries : List DirEntry) :
    (∀ (pre post : List DirEntry) (e : DirEntry), entries = pre ++ e :: post →
        e.isDir = true → strings.Contains (strings.ToLower tbl e.name) "discord" = true →
        (∀ x ∈ pre, ¬ (x.isDir = true ∧
          strings.Contains (strings.ToLower tbl x.name) "discord" = true)) →
        findExtractedDir tbl homeDir entries = filepath.Join [homeDir, e.name] ∧
        findExtractedDir tbl homeDir entries ≠ "") ∧
    (findExtractedDir tbl homeDir entries ≠ "" →
        ∃ e ∈ entries, e.isDir = true ∧
          strings.Contains (strings.ToLower tbl e.name) "discord" = true ∧
          findExtractedDir tbl homeDir entries = filepath.Join [homeDir, e.name]) ∧
    ((∀ x ∈ entries, ¬ (x.isDir = true ∧
          strings.Contains (strings.ToLower tbl x.name) "discord" = true)) →
        findExtractedDir tbl homeDir entries = "" ∧
        ∀ o : Script, o.home = .ok homeDir → o.clear = none → o.download = none →
          o.extract = none → o.listing = .ok entries →
          (runScript tbl o).out.getLast? =
              some ["Error: Could not find extracted Discord folder."] ∧
            Call.Rename ∉ (runScript tbl o).calls ∧
            Call.createDesktopFile ∉ (runScript tbl o).calls) := by
  have hq : ∀ x : DirEntry, ¬ (x.isDir = true ∧
      strings.Contains (strings.ToLower tbl x.name) "discord" = true) →
      qualifies tbl x = false := by
    intro x hx
    cases hb : qualifies tbl x with
    | false => rfl
    | true =>
      simp only [qualifies, Bool.and_eq_true] at hb
      exact absurd hb hx
  refine ⟨?_, ?_, ?_⟩
  · intro pre post e hE hd hc hpre
    subst hE
    have he : qualifies tbl e = true := by simp [qualifies, hd, hc]
    rw [findExtractedDir_first tbl homeDir pre post e he (fun x hx => hq x (hpre x hx))]
    exact ⟨rfl, Join_pair_ne_empty _ _ (name_ne_empty_of_qualifies tbl e he)⟩
  · intro h
    obtain ⟨e, he, hq, hr⟩ := findExtractedDir_mem tbl homeDir entries h
    simp only [qualifies, Bool.and_eq_true] at hq
    exact ⟨e, he, hq.1, hq.2, hr⟩
  · intro h
    have hnone := findExtractedDir_none tbl homeDir entries (fun x hx => hq x (h x hx))
    refine ⟨hnone, ?_⟩
    intro o h1 h2 h3 h4 h5
    rw [runScript_not_found tbl o homeDir entries h1 h2 h3 h4 h5 hnone]
    simp

/-- C1, witness: the siblings `DiscordCanary` (a directory) and `readme.txt` (a file)
select `DiscordCanary`; and with a case table that lower-cases U+0130 to `i`, the
directory `DİSCORD` listed before `zdiscord` is the one selected. -/
theorem locator_selects_first_match_witness :
    findExtractedDir sampleTable "/home/u" [⟨"DiscordCanary", true⟩, ⟨"readme.txt", false⟩]
      = filepath.Join ["/home/u", "DiscordCanary"] ∧
    findExtractedDir sampleTable "/home/u" [⟨"DİSCORD", true⟩, ⟨"zdiscord", true⟩]
      = filepath.Join ["/home/u", "DİSCORD"] :=
  ⟨((locator_selects_first_match sampleTable "/home/u"
      [⟨"DiscordCanary", true⟩, ⟨"readme.txt", false⟩]).1 [] [⟨"readme.txt", false⟩]
      ⟨"DiscordCanary", true⟩ rfl rfl (by decide) (by simp)).1,
   ((locator_selects_first_match sampleTable "/home/u"
      [⟨"DİSCORD", true⟩, ⟨"zdiscord", true⟩]).1 [] [⟨"zdiscord", true⟩]
      ⟨"DİSCORD", true⟩ rfl rfl (by decide) (by simp)).1⟩

/-! ## the order of the stages -/

/-- C4. Fail-fast ordering of `main`: for every combination of outcomes of the calls
`main` makes, the calls made are exactly those of the stages `ResolveHome`,
`ClearPriorInstall`, `Download`, `Extract`, `LocateAndRename`, `RegisterLaunchers`
taken in this order up to and including the first stage that fails, so no stage
after a failing one is invoked; "Installation complete!" is printed if and only if
no stage fails, and then every outcome is a success and `user.Current`,
`removeDirIfExists`, `downloadFile`, `extractTarGz`, `os.ReadDir` and
`createDesktopFile` have each been called once; the calls are in the order of the
pipeline, a call that fails is the last call made, and when `downloadFile` fails,
`extractTarGz`, `os.ReadDir`, `os.Rename` and `createDesktopFile` are called zero
times. -/
theorem main_fail_fast (tbl : Char → Char) (o : Script) :
    (runScript tbl o).calls
      = (throughFirstFailure (o.stageFails tbl) stages).flatMap (o.stageCalls tbl) ∧
    (["Installation complete!"] ∈ (runScript tbl o).out ↔
        ∀ s ∈ stages, o.stageFails tbl s = false) ∧
    (["Installation complete!"] ∈ (runScript tbl o).out →
        o.home.toBool = true ∧ o.clear = none ∧ o.download = none ∧ o.extract = none ∧
        o.listing.toBool = true ∧ o.register = none ∧
        (Call.Rename ∈ (runScript tbl o).calls → o.rename = none) ∧
        (runScript tbl o).calls.count .Current = 1 ∧
        (runScript tbl o).calls.count .removeDirIfExists = 1 ∧
        (runScript tbl o).calls.count .downloadFile = 1 ∧
        (runScript tbl o).calls.count .extractTarGz = 1 ∧
        (runScript tbl o).calls.count .ReadDir = 1 ∧
        (runScript tbl o).calls.count .createDesktopFile = 1) ∧
    (runScript tbl o).calls.Sublist pipeline ∧
    (∀ c ∈ (runScript tbl o).calls, o.fails c = true →
        (runScript tbl o).calls.getLast? = some c) ∧
    (o.download.isSome = true →
        (runScript tbl o).calls.count .extractTarGz = 0 ∧
        (runScript tbl o).calls.count .ReadDir = 0 ∧
        (runScript tbl o).calls.count .Rename = 0 ∧
        (runScript tbl o).calls.count .createDesktopFile = 0) ∧
    (["Installation complete!"] ∈ (runScript tbl o).out →
        (∀ c ∈ (runScript tbl o).calls, o.fails c = false) ∧
        Call.createDesktopFile ∈ (runScript tbl o).calls) := by
  obtain ⟨home, clear, download, extract, listing, rename, register⟩ := o
  cases home with
  | error e => simp [runScript, mainWith, scripted, Trace.log, pipeline, Script.fails, Except.toBool, stages,
      throughFirstFailure, Script.stageFails, Script.stageCalls, *]
  | ok homeDir =>
  cases clear with
  | some e => simp [runScript, mainWith, scripted, Trace.log, pipeline, Script.fails, Except.toBool, stages,
      throughFirstFailure, Script.stageFails, Script.stageCalls, *]
  | none =>
  cases download with
  | some e => simp [runScript, mainWith, scripted, Trace.log, pipeline, Script.fails, Except.toBool, stages,
      throughFirstFailure, Script.stageFails, Script.stageCalls, *]
  | none =>
  cases extract with
  | some e => simp [runScript, mainWith, scripted, Trace.log, pipeline, Script.fails, Except.toBool, stages,
      throughFirstFailure, Script.stageFails, Script.stageCalls, *]
  | none =>
  cases listing with
  | error e => simp [runScript, mainWith, scripted, Trace.log, pipeline, Script.fails, Except.toBool, stages,
      throughFirstFailure, Script.stageFails, Script.stageCalls, *]
  | ok entries =>
  by_cases h1 : findExtractedDir tbl homeDir entries = ""
  · simp [runScript, mainWith, scripted, Trace.log, pipeline, Script.fails, Except.toBool, stages,
      throughFirstFailure, Script.stageFails, Script.stageCalls, *]
  · by_cases h2 : findExtractedDir tbl homeDir entries = filepath.Join [homeDir, "Discord"]
    · have h3 : filepath.Join [homeDir, "Discord"] ≠ "" := h2 ▸ h1
      cases register with
      | some e => simp [runScript, mainWith, scripted, Trace.log, pipeline, Script.fails, Except.toBool, stages,
      throughFirstFailure, Script.stageFails, Script.stageCalls, h2, h3]
      | none => simp [runScript, mainWith, scripted, Trace.log, pipeline, Script.fails, Except.toBool, stages,
      throughFirstFailure, Script.stageFails, Script.stageCalls, h2, h3]
    · cases rename with
      | some e => simp [runScript, mainWith, scripted, Trace.log, pipeline, Script.fails, Except.toBool, stages,
      throughFirstFailure, Script.stageFails, Script.stageCalls, *]
      | none =>
        cases register with
        | some e => simp [runScript, mainWith, scripted, Trace.log, pipeline, Script.fails, Except.toBool, stages,
      throughFirstFailure, Script.stageFails, Script.stageCalls, *]
        | none => simp [runScript, mainWith, scripted, Trace.log, pipeline, Script.fails, Except.toBool, stages,
      throughFirstFailure, Script.stageFails, Script.stageCalls, *]

/-- C4, witness: when the download fails the run ends after three calls, and a run
in which every call succeeds makes all seven. -/
theorem main_fail_fast_witness :
    (runScript sampleTable ⟨.ok "/home/u", none, some (.msg "connection refused"), none,
      .ok [], none, none⟩).calls.count .extractTarGz = 0 ∧
    (runScript sampleTable ⟨.ok "/home/u", none, none, none, .ok [⟨"DiscordCanary", true⟩],
      none, none⟩).calls.count .createDesktopFile = 1 :=
  ⟨((main_fail_fast sampleTable ⟨.ok "/home/u", none, some (.msg "connection refused"), none,
      .ok [], none, none⟩).2.2.2.2.2.1 rfl).1,
   ((main_fail_fast sampleTable ⟨.ok "/home/u", none, none, none,
      .ok [⟨"DiscordCanary", true⟩], none, none⟩).2.2.1
        (((main_fail_fast sampleTable ⟨.ok "/home/u", none, none, none,
          .ok [⟨"DiscordCanary", true⟩], none, none⟩).2.1).2 (by decide))).2.2.2.2.2.2.2.2.2.2.2.2⟩

/-! ## unsupported entries -/

theorem extractEntry_fs_only (env : Env) (destDir : String) (e : Entry) (w w' : World)
    (h : w.fs = w'.fs) :
    (extractEntry env destDir e w).1.fs = (extractEntry env destDir e w').1.fs ∧
      (extractEntry env destDir e w).2 = (extractEntry env destDir e w').2 := by
  obtain ⟨fs, out⟩ := w
  obtain ⟨fs', out'⟩ := w'
  simp only at h
  subst h
  unfold extractEntry
  simp only
  split_ifs
  · cases os.MkdirAll env fs (filepath.Join [destDir, e.header.Name]) (permOf e.header.Mode) <;>
      simp
  · cases os.MkdirAll env fs (filepath.Dir (filepath.Join [destDir, e.header.Name])) 493 with
    | error err => simp
    | ok m =>
      simp only
      cases os.writeOpen env m (filepath.Join [destDir, e.header.Name]) false
          (permOf e.header.Mode) e.payload with
      | error err => simp
      | ok m1 =>
        simp only
        cases e.readErr <;> simp [println]
  · simp [println]

theorem extractEntry_unsupported (env : Env) (destDir : String) (e : Entry) (w : World)
    (h : supported e = false) :
    extractEntry env destDir e w =
      (println ["Skipping unsupported file type: " ++ e.header.Name ++ "\n"] w, none) := by
  simp only [supported, Bool.or_eq_false_iff, decide_eq_false_iff_not] at h
  simp [extractEntry, h.1, h.2]

theorem extractLoop_filter (env : Env) (destDir : String) (tail : Option Error)
    (es : List Entry) (w w' : World) (h : w.fs = w'.fs) :
    (extractLoop env destDir tail (es.filter supported) w).1.fs
        = (extractLoop env destDir tail es w').1.fs ∧
      (extractLoop env destDir tail (es.filter supported) w).2
        = (extractLoop env destDir tail es w').2 := by
  induction es generalizing w w' with
  | nil =>
    simp only [List.filter_nil, extractLoop]
    cases tail <;> simp [h]
  | cons e es ih =>
    by_cases hs : supported e = true
    · simp only [List.filter_cons, hs, if_true, extractLoop]
      have := extractEntry_fs_only env destDir e w w' h
      cases h1 : extractEntry env destDir e w with
      | mk w1 r1 =>
        cases h2 : extractEntry env destDir e w' with
        | mk w2 r2 =>
          rw [h1, h2] at this
          simp only at this
          obtain ⟨hfs, hr⟩ := this
          subst hr
          cases r1 with
          | some err => simp [hfs]
          | none => exact ih w1 w2 hfs
    · have hs' : supported e = false := by simpa using hs
      simp only [List.filter_cons, hs', Bool.false_eq_true, if_false, extractLoop,
        extractEntry_unsupported env destDir e w' hs']
      exact ih w _ (by simp [println, h])

/-- C9. Unsupported entry types in `extractTarGz`: an entry whose type flag is
neither directory nor regular file is skipped, with no error and no change of the
file system, and the entries after it are processed: for every archive, every source
and destination and every initial state, the returned error and the final file
system are those of extracting the same archive with the unsupported entries
removed. -/
theorem extractTarGz_skips_unsupported (env : Env) (srcFile destDir : String) (w : World) :
    (∀ e : Entry, supported e = false →
        (extractEntry env destDir e w).2 = none ∧ (extractEntry env destDir e w).1.fs = w.fs) ∧
    (extractTarGz { env with gunzip := dropUnsupported env.gunzip } srcFile destDir w).2
        = (extractTarGz env srcFile destDir w).2 ∧
    (extractTarGz { env with gunzip := dropUnsupported env.gunzip } srcFile destDir w).1.fs
        = (extractTarGz env srcFile destDir w).1.fs := by
  refine ⟨fun e he => by simp [extractEntry_unsupported env destDir e w he, println], ?_⟩
  have hloc : ∀ p, locate { env with gunzip := dropUnsupported env.gunzip } p = locate env p :=
    fun p => rfl
  have hloop : ∀ tail es v,
      extractLoop { env with gunzip := dropUnsupported env.gunzip } destDir tail es v
        = extractLoop env destDir tail es v := by
    intro tail es v
    induction es generalizing v with
    | nil => rfl
    | cons e es ih =>
      have he : extractEntry { env with gunzip := dropUnsupported env.gunzip } destDir e v
          = extractEntry env destDir e v := rfl
      simp only [extractLoop, he]
      cases extractEntry env destDir e v with
      | mk w1 r1 =>
        cases r1 with
        | some err => rfl
        | none => exact ih w1
  unfold extractTarGz
  simp only [hloc, hloop, dropUnsupported]
  cases locate env srcFile with
  | error e => simp
  | ok p =>
    simp only
    cases (println ["Step 2: Starting extraction..."] w).fs.find p with
    | error e => simp
    | ok node =>
      cases node with
      | dir q ch => simp
      | file q content =>
        simp only
        cases env.gunzip content with
        | error e => simp
        | ok a =>
          simp only
          have := extractLoop_filter env destDir a.tail a.entries
            (println ["Step 2: Starting extraction..."] w)
            (println ["Step 2: Starting extraction..."] w) rfl
          cases h1 : extractLoop env destDir a.tail (List.filter supported a.entries)
              (println ["Step 2: Starting extraction..."] w) with
          | mk w1 r1 =>
            cases h2 : extractLoop env destDir a.tail a.entries
                (println ["Step 2: Starting extraction..."] w) with
            | mk w2 r2 =>
              rw [h1, h2] at this
              simp only at this
              obtain ⟨hfs, hr⟩ := this
              subst hr
              cases r1 <;> simp [println, hfs]

/-- C9, witness: a symbolic link between two files is skipped. -/
theorem extractTarGz_skips_unsupported_witness :
    (extractEntry (sampleEnv ⟨[], none⟩)
        "/home/u" ⟨⟨"a/link", 50, 0o777⟩, [], none⟩ ⟨.dir 0o755 [], []⟩).2 = none :=
  ((extractTarGz_skips_unsupported
      (sampleEnv ⟨[], none⟩) "" "/home/u"
      ⟨.dir 0o755 [], []⟩).1 ⟨⟨"a/link", 50, 0o777⟩, [], none⟩ (by decide)).1

/-! ## system calls on paths -/

theorem locate_of_ne (env : Env) (path : String) (h : path ≠ "") :
    locate env path = .ok (resolve env.cwd path) := by
  simp [locate, h]

theorem Stat_of_ne (env : Env) (fs : Node) (path : String) (h : path ≠ "") :
    os.Stat env fs path = fs.stat (resolve env.cwd path) := by
  simp [os.Stat, locate, h]

theorem Dir_ne_empty (path : String) : filepath.Dir path ≠ "" := Clean_ne_empty _

theorem findOpt_child (m : Node) (D : List String) (q : Nat) (kids : List (String × Node))
    (c : String) (h : m.find D = .ok (.dir q kids)) :
    findOpt (some m) (D ++ [c]) = getChild c kids := by
  have hf := find_append m D [c]
  rw [h] at hf
  simp only [find_dir_cons] at hf
  cases hc : getChild c kids with
  | none =>
    rw [hc] at hf
    exact findOpt_of_stat_error m _ .ENOENT (by simp [Node.stat, hf])
  | some x =>
    rw [hc] at hf
    simp only [Node.find] at hf
    exact findOpt_of_find m x _ hf

theorem append_singleton_not_below (D : List String) (c : String) : ¬ (D ++ [c]) <+: D := by
  intro h
  have := h.length_le
  simp at this

/-- Writing below an existing directory: the write goes through when `openWrite`
accepts what is there, the node written is found there, the directory stays. -/
theorem alter_child (m : Node) (D : List String) (q : Nat) (kids : List (String × Node))
    (c : String) (tr : Bool) (perm : Nat) (data : List Nat) (x : Node)
    (h : m.find D = .ok (.dir q kids))
    (hx : openWrite tr perm data (getChild c kids) = .ok (some x)) :
    ∃ m1, m.alter (openWrite tr perm data) (D ++ [c]) = .ok m1 ∧
      m1.find (D ++ [c]) = .ok x ∧ m1.stat D = .ok (.dir q) := by
  obtain ⟨m1, hm1⟩ := alter_ok (openWrite tr perm data) m D c q kids _ h hx
  refine ⟨m1, hm1, ?_, ?_⟩
  · have := alter_spec _ m m1 _ hm1
    rw [findOpt_child m D q kids c h, hx] at this
    simp only [Except.ok.injEq] at this
    exact find_of_findOpt m1 x _ this.symm
  · rw [alter_frame _ m m1 _ D hm1 (append_singleton_not_below D c)]
    exact stat_of_find m _ D h

theorem writeOpen_child (env : Env) (m : Node) (path : String) (D : List String) (q : Nat)
    (kids : List (String × Node)) (c : String) (tr : Bool) (perm : Nat) (data : List Nat)
    (x : Node) (hp : path ≠ "") (hpos : resolve env.cwd path = D ++ [c])
    (h : m.find D = .ok (.dir q kids))
    (hx : openWrite tr perm data (getChild c kids) = .ok (some x)) :
    ∃ m1, os.writeOpen env m path tr perm data = .ok m1 ∧
      m1.find (D ++ [c]) = .ok x ∧ m1.stat D = .ok (.dir q) := by
  obtain ⟨m1, h1, h2, h3⟩ := alter_child m D q kids c tr perm data x h hx
  exact ⟨m1, by simp [os.writeOpen, locate, hp, hpos, h1], h2, h3⟩

/-- Extraction of a regular-file entry `parent/n` into a directory that exists or can
be made: the ancestors are created, the file is opened with `O_CREATE` and the
payload written over what the file held. -/
theorem extractEntry_reg (env : Env) (w : World) (destDir parent n : String) (mode : Int)
    (payload : List Nat) (q : Nat) (kids : List (String × Node)) (m : Node) (x : Node)
    (hd : destDir ≠ "") (hn : plainName n = true)
    (hm : w.fs.mkdirAll 0o755 (resolve env.cwd (filepath.Join [destDir, parent])) = .ok m)
    (hf : m.find (resolve env.cwd (filepath.Join [destDir, parent])) = .ok (.dir q kids))
    (hx : openWrite false (permOf mode) payload (getChild n kids) = .ok (some x)) :
    ∃ m1, extractEntry env destDir ⟨⟨parent ++ "/" ++ n, TypeReg, mode⟩, payload, none⟩ w
        = (println ["Extracted file:", filepath.Join [destDir, parent ++ "/" ++ n]]
            { w with fs := m1 }, none) ∧
      m1.find (resolve env.cwd (filepath.Join [destDir, parent]) ++ [n]) = .ok x ∧
      m1.stat (resolve env.cwd (filepath.Join [destDir, parent])) = .ok (.dir q) := by
  have hT : filepath.Join [destDir, parent ++ "/" ++ n] ≠ "" := Join_ne_empty _ _ hd
  have hpos := resolve_Join_child env.cwd destDir parent n hd hn
  have hdir := resolve_Dir_Join_child env.cwd destDir parent n hd hn
  obtain ⟨m1, h1, h2, h3⟩ := writeOpen_child env m _ _ q kids n false (permOf mode) payload x
    hT hpos hf hx
  refine ⟨m1, ?_, h2, h3⟩
  have hmk : os.MkdirAll env w.fs (filepath.Dir (filepath.Join [destDir, parent ++ "/" ++ n]))
      0o755 = .ok m := by
    simp [os.MkdirAll, locate, Dir_ne_empty, hdir, hm]
  have ht : (TypeReg = TypeDir) = False := by decide
  simp only [extractEntry, ht, if_false, if_true, hmk, h1]

theorem resolve_Join_trailing (cwd : List String) (destDir parent : String)
    (hd : destDir ≠ "") :
    resolve cwd (filepath.Join [destDir, parent ++ "/"])
      = resolve cwd (filepath.Join [destDir, parent]) := by
  rw [resolve_Join cwd destDir _ [] hd, resolve_Join cwd destDir _ [] hd]
  simp only [joinSlash]
  have : parent ++ "/" = parent ++ "/" ++ "" := by simp
  rw [this, resolveFrom_append, resolveFrom_empty]

/-- Extraction of a directory entry whose target is a directory already. -/
theorem extractEntry_dir_exists (env : Env) (w : World) (destDir name : String) (mode : Int)
    (payload : List Nat) (q : Nat) (kids : List (String × Node)) (hd : destDir ≠ "")
    (hf : w.fs.find (resolve env.cwd (filepath.Join [destDir, name])) = .ok (.dir q kids)) :
    extractEntry env destDir ⟨⟨name, TypeDir, mode⟩, payload, none⟩ w = (w, none) := by
  have hT : filepath.Join [destDir, name] ≠ "" := Join_ne_empty _ _ hd
  have := mkdirAll_of_dir (permOf mode) _ w.fs q kids hf
  simp [extractEntry, os.MkdirAll, locate, hT, this]

/-! ## entries out of order -/

theorem mkdirAll_keeps (perm : Nat) (D : List String) (n m : Node) (t : List String)
    (i : Info) (h : n.mkdirAll perm D = .ok m) (ht : n.stat t = .ok i) : m.stat t = .ok i := by
  induction D generalizing n m t with
  | nil =>
    cases n with
    | file p d => simp [Node.mkdirAll] at h
    | dir p ch =>
      simp only [Node.mkdirAll, Except.ok.injEq] at h
      subst h
      exact ht
  | cons c rest ih =>
    cases n with
    | file p d => simp [Node.mkdirAll] at h
    | dir p ch =>
      rw [Node.mkdirAll] at h
      cases hr : (orNew perm (getChild c ch)).mkdirAll perm rest with
      | error e => simp [hr] at h
      | ok m' =>
        simp only [hr, Except.ok.injEq] at h
        subst h
        cases t with
        | nil => exact ht
        | cons d t' =>
          rw [stat_dir_cons] at ht ⊢
          by_cases hd : d = c
          · subst hd
            rw [getChild_setChild_same]
            cases hc : getChild d ch with
            | none => simp [hc, statOpt] at ht
            | some x =>
              rw [hc] at ht hr
              exact ih x m' t' hr ht
          · rw [getChild_setChild_ne c d m' ch hd]
            exact ht

/-- Extraction of an entry leaves every directory a directory. -/
theorem extractEntry_keeps_dir (env : Env) (destDir : String) (e : Entry) (w : World)
    (t : List String) (p : Nat) (h : w.fs.stat t = .ok (.dir p)) :
    (extractEntry env destDir e w).1.fs.stat t = .ok (.dir p) := by
  unfold extractEntry
  simp only
  split_ifs
  · simp only [os.MkdirAll]
    cases locate env (filepath.Join [destDir, e.header.Name]) with
    | error err => exact h
    | ok pos =>
      simp only
      cases hm : w.fs.mkdirAll (permOf e.header.Mode) pos with
      | error err => exact h
      | ok m => exact mkdirAll_keeps _ _ _ m t _ hm h
  · simp only [os.MkdirAll]
    cases locate env (filepath.Dir (filepath.Join [destDir, e.header.Name])) with
    | error err => exact h
    | ok pos =>
      simp only
      cases hm : w.fs.mkdirAll 493 pos with
      | error err => exact h
      | ok m =>
        have h1 := mkdirAll_keeps _ _ _ m t _ hm h
        simp only [os.writeOpen]
        cases locate env (filepath.Join [destDir, e.header.Name]) with
        | error err => exact h1
        | ok pos2 =>
          simp only
          cases ha : m.alter (openWrite false (permOf e.header.Mode) e.payload) pos2 with
          | error err => exact h1
          | ok m1 =>
            have h2 := alter_openWrite_dir _ _ _ m m1 pos2 t p ha h1
            simp only
            cases e.readErr <;> exact h2
  · exact h

theorem extractLoop_keeps_dir (env : Env) (destDir : String) (tail : Option Error)
    (es : List Entry) (w : World) (t : List String) (p : Nat)
    (h : w.fs.stat t = .ok (.dir p)) :
    (extractLoop env destDir tail es w).1.fs.stat t = .ok (.dir p) := by
  induction es generalizing w with
  | nil => cases tail <;> exact h
  | cons e es ih =>
    have h1 := extractEntry_keeps_dir env destDir e w t p h
    simp only [extractLoop]
    rcases he : extractEntry env destDir e w with ⟨w1, _ | err⟩
    · rw [he] at h1
      exact ih w1 h1
    · rw [he] at h1
      exact h1

theorem extractLoop_append (env : Env) (destDir : String) (tail : Option Error)
    (es fs : List Entry) (w : World)
    (h : (extractLoop env destDir none es w).2 = none) :
    extractLoop env destDir tail (es ++ fs) w
      = extractLoop env destDir tail fs (extractLoop env destDir none es w).1 := by
  induction es generalizing w with
  | nil => rfl
  | cons e es ih =>
    simp only [List.cons_append, extractLoop] at h ⊢
    rcases he : extractEntry env destDir e w with ⟨w1, _ | err⟩
    · rw [he] at h
      exact ih w1 h
    · rw [he] at h
      simp at h

theorem dirEntry_exists (env : Env) (w : World) (destDir parent : String) (slash : Bool)
    (mode : Int) (junk : List Nat) (q : Nat) (hd : destDir ≠ "")
    (hs : w.fs.stat (resolve env.cwd (filepath.Join [destDir, parent])) = .ok (.dir q)) :
    extractEntry env destDir (dirEntry parent slash mode junk) w = (w, none) := by
  obtain ⟨kids, hk⟩ := find_of_stat_dir w.fs _ q hs
  have hname : resolve env.cwd (filepath.Join [destDir, if slash then parent ++ "/" else parent])
      = resolve env.cwd (filepath.Join [destDir, parent]) := by
    cases slash with
    | false => rfl
    | true => exact resolve_Join_trailing env.cwd destDir parent hd
  exact extractEntry_dir_exists env w destDir _ mode junk q kids hd (by rw [hname]; exact hk)

theorem fileEntry_fresh (env : Env) (w : World) (destDir parent n : String) (fmode : Int)
    (payload : List Nat) (hd : destDir ≠ "") (hn : plainName n = true)
    (habs : os.Stat env w.fs (filepath.Join [destDir, parent]) = .error .ENOENT) :
    (extractEntry env destDir (fileEntry (parent ++ "/" ++ n) fmode payload) w).2 = none ∧
    os.Stat env (extractEntry env destDir (fileEntry (parent ++ "/" ++ n) fmode payload) w).1.fs
        (filepath.Join [destDir, parent]) = .ok (.dir 0o755) ∧
    os.Stat env (extractEntry env destDir (fileEntry (parent ++ "/" ++ n) fmode payload) w).1.fs
        (filepath.Join [destDir, parent ++ "/" ++ n]) = .ok (.file (permOf fmode) payload) := by
  have hP : filepath.Join [destDir, parent] ≠ "" := Join_ne_empty _ _ hd
  have hT : filepath.Join [destDir, parent ++ "/" ++ n] ≠ "" := Join_ne_empty _ _ hd
  rw [Stat_of_ne env _ _ hP] at habs
  obtain ⟨m, hm, hf⟩ := mkdirAll_fresh 0o755 _ (some w.fs) habs
  simp only [orNew] at hm
  obtain ⟨m1, h1, h2, h3⟩ := extractEntry_reg env w destDir parent n fmode payload 0o755 [] m
    (.file (permOf fmode) payload) hd hn hm hf rfl
  have hpos := resolve_Join_child env.cwd destDir parent n hd hn
  simp only [fileEntry, h1, Stat_of_ne env _ _ hP, Stat_of_ne env _ _ hT, hpos, println]
  exact ⟨trivial, h3, stat_of_find m1 _ _ h2⟩

theorem extractLoop_later_dir (env : Env) (w : World) (destDir parent n : String)
    (fmode dmode : Int) (payload junk : List Nat) (slash : Bool) (mid : List Entry)
    (tail : Option Error) (hd : destDir ≠ "") (hn : plainName n = true)
    (habs : os.Stat env w.fs (filepath.Join [destDir, parent]) = .error .ENOENT)
    (hmid : (extractLoop env destDir none
      (fileEntry (parent ++ "/" ++ n) fmode payload :: mid) w).2 = none) :
    extractLoop env destDir tail
        (fileEntry (parent ++ "/" ++ n) fmode payload :: mid ++ [dirEntry parent slash dmode junk]) w
      = extractLoop env destDir tail (fileEntry (parent ++ "/" ++ n) fmode payload :: mid) w := by
  have hP : filepath.Join [destDir, parent] ≠ "" := Join_ne_empty _ _ hd
  obtain ⟨f1, f2, _⟩ := fileEntry_fresh env w destDir parent n fmode payload hd hn habs
  rw [Stat_of_ne env _ _ hP] at f2
  have hdir : (extractLoop env destDir none
      (fileEntry (parent ++ "/" ++ n) fmode payload :: mid) w).1.fs.stat
      (resolve env.cwd (filepath.Join [destDir, parent])) = .ok (.dir 0o755) := by
    simp only [extractLoop]
    rcases he : extractEntry env destDir (fileEntry (parent ++ "/" ++ n) fmode payload) w
      with ⟨w1, _ | err⟩
    · rw [he] at f2
      exact extractLoop_keeps_dir env destDir none mid w1 _ _ f2
    · rw [he] at f1
      simp at f1
  have hfin := dirEntry_exists env _ destDir parent slash dmode junk 0o755 hd hdir
  have e1 := extractLoop_append env destDir tail
    (fileEntry (parent ++ "/" ++ n) fmode payload :: mid) [dirEntry parent slash dmode junk] w hmid
  have e2 := extractLoop_append env destDir tail
    (fileEntry (parent ++ "/" ++ n) fmode payload :: mid) [] w hmid
  rw [List.append_nil] at e2
  rw [e1, e2]
  generalize (extractLoop env destDir none
    (fileEntry (parent ++ "/" ++ n) fmode payload :: mid) w).1 = W at hfin ⊢
  simp only [extractLoop, hfin]

theorem find_of_stat_file (n : Node) (path : List String) (p : Nat) (c : List Nat)
    (h : n.stat path = .ok (.file p c)) : n.find path = .ok (.file p c) := by
  unfold Node.stat at h
  cases hf : n.find path with
  | error e => simp [hf] at h
  | ok m =>
    rw [hf] at h
    cases m with
    | dir q ch => simp [Node.info] at h
    | file q d =>
      simp only [Node.info, Except.ok.injEq, Info.file.injEq] at h
      rw [h.1, h.2]

/-- What `extractTarGz` does once the source is open and decoded. -/
theorem extractTarGz_of_archive (env : Env) (w : World) (srcFile destDir : String) (p : Nat)
    (content : List Nat) (a : TarStream)
    (hf : os.Stat env w.fs srcFile = .ok (.file p content))
    (hg : env.gunzip content = .ok a) :
    extractTarGz env srcFile destDir w =
      match extractLoop env destDir a.tail a.entries
          (println ["Step 2: Starting extraction..."] w) with
      | (w1, some err) => (w1, some err)
      | (w1, none) => (println ["Extraction complete."] w1, none) := by
  have hs : srcFile ≠ "" := by
    intro h0
    simp [os.Stat, locate, h0] at hf
  rw [Stat_of_ne env _ _ hs] at hf
  have hf' : (println ["Step 2: Starting extraction..."] w).fs.find (resolve env.cwd srcFile)
      = .ok (.file p content) := find_of_stat_file _ _ _ _ hf
  simp only [extractTarGz, locate, hs, if_false, hf', hg]

/-- C8. Unordered entries in `extractTarGz`: for every destination, every state of
the file system in which the directory `parent` does not yet exist, and every
regular-file entry `parent/n`: the entry is extracted without error, the missing
ancestors are created on demand (mode 0755) and the file is written with the
entry's mode and payload. In every archive that goes on with entries `mid` and then
lists the directory entry of `parent` (named with or without a trailing separator),
that later entry causes no error and changes nothing: loop and `extractTarGz`
return what they return without it, so extraction succeeds whenever the entries
before the directory entry do. -/
theorem extractTarGz_unordered (env : Env) (w : World) (destDir parent n : String)
    (fmode dmode : Int) (payload junk : List Nat) (slash : Bool)
    (hd : destDir ≠ "") (hn : plainName n = true)
    (habs : os.Stat env w.fs (filepath.Join [destDir, parent]) = .error .ENOENT) :
    ((extractEntry env destDir (fileEntry (parent ++ "/" ++ n) fmode payload) w).2 = none ∧
      os.Stat env (extractEntry env destDir (fileEntry (parent ++ "/" ++ n) fmode payload) w).1.fs
        (filepath.Join [destDir, parent]) = .ok (.dir 0o755) ∧
      os.Stat env (extractEntry env destDir (fileEntry (parent ++ "/" ++ n) fmode payload) w).1.fs
        (filepath.Join [destDir, parent ++ "/" ++ n]) = .ok (.file (permOf fmode) payload)) ∧
    (∀ (mid : List Entry) (tail : Option Error),
      (extractLoop env destDir none
        (fileEntry (parent ++ "/" ++ n) fmode payload :: mid) w).2 = none →
      extractLoop env destDir tail
          (fileEntry (parent ++ "/" ++ n) fmode payload :: mid ++
            [dirEntry parent slash dmode junk]) w
        = extractLoop env destDir tail
          (fileEntry (parent ++ "/" ++ n) fmode payload :: mid) w) ∧
    (∀ (mid : List Entry) (srcFile : String) (p : Nat) (content : List Nat),
      os.Stat env w.fs srcFile = .ok (.file p content) →
      env.gunzip content
        = .ok ⟨fileEntry (parent ++ "/" ++ n) fmode payload :: mid ++
            [dirEntry parent slash dmode junk], none⟩ →
      (extractLoop env destDir none (fileEntry (parent ++ "/" ++ n) fmode payload :: mid)
        (println ["Step 2: Starting extraction..."] w)).2 = none →
      (extractTarGz env srcFile destDir w).2 = none) := by
  refine ⟨fileEntry_fresh env w destDir parent n fmode payload hd hn habs, ?_, ?_⟩
  · intro mid tail hmid
    exact extractLoop_later_dir env w destDir parent n fmode dmode payload junk slash mid tail
      hd hn habs hmid
  · intro mid srcFile p content hf hg hmid
    have := extractLoop_later_dir env (println ["Step 2: Starting extraction..."] w) destDir
      parent n fmode dmode payload junk slash mid none hd hn habs hmid
    rw [extractTarGz_of_archive env w srcFile destDir p content _ hf hg]
    simp only
    rw [this]
    rcases hl : extractLoop env destDir none
        (fileEntry (parent ++ "/" ++ n) fmode payload :: mid)
        (println ["Step 2: Starting extraction..."] w) with ⟨w1, _ | e1⟩
    · rfl
    · rw [hl] at hmid
      simp at hmid

/-- C8, witness: the archive that lists the file `a/b.txt` before the directory `a/`,
extracted from the staging file into an empty home directory. -/
theorem extractTarGz_unordered_witness :
    (extractTarGz
      (sampleEnv ⟨[fileEntry ("a" ++ "/" ++ "b.txt") 0o644 [120], dirEntry "a" true 0o755 []],
        none⟩)
      "/var/tmp/discord.tar.gz" "/home/u" ⟨stagedHome, []⟩).2 = none :=
  (extractTarGz_unordered
    (sampleEnv ⟨[fileEntry ("a" ++ "/" ++ "b.txt") 0o644 [120], dirEntry "a" true 0o755 []],
      none⟩)
    ⟨stagedHome, []⟩ "/home/u" "a" "b.txt" 0o644 0o755 [120] [] true (by decide) (by decide)
    (by decide)).2.2 [] "/var/tmp/discord.tar.gz" 0o666 [31, 139, 8] (by decide) rfl
    (by decide)

/-! ## no containment check -/

theorem resolveFrom_dotdot (P : List String) (d : String) : resolveFrom (P ++ [d]) ".." = P := by
  have hc : components ".." = [".."] := by decide
  simp [resolveFrom, hc, resolveStep]

theorem getChild_none_of_stat (fs : Node) (D : List String) (q : Nat)
    (kids : List (String × Node)) (c : String) (hf : fs.find D = .ok (.dir q kids))
    (h : fs.stat (D ++ [c]) = .error .ENOENT) : getChild c kids = none := by
  have := findOpt_of_stat_error fs _ _ h
  rwa [findOpt_child fs D q kids c hf] at this

/-- C10. No path containment check in `extractTarGz`: the target of an entry is
`filepath.Join(destDir, header.Name)` and nothing compares it with `destDir`. For
every destination directory (other than the root) and every plain name `n` other
than the destination's own name, a regular-file entry named `../n` whose target does
not exist yet is extracted without error to the sibling `n` of the destination: a
file with the entry's mode and payload at a position outside `destDir`. -/
theorem extractTarGz_no_containment (env : Env) (w : World) (destDir n d : String)
    (P : List String) (mode : Int) (payload : List Nat) (q : Nat)
    (hd : destDir ≠ "") (hn : plainName n = true)
    (hpos : resolve env.cwd destDir = P ++ [d]) (hne : d ≠ n)
    (hpar : os.Stat env w.fs (filepath.Join [destDir, ".."]) = .ok (.dir q))
    (habs : os.Stat env w.fs (filepath.Join [destDir, "../" ++ n]) = .error .ENOENT) :
    (extractEntry env destDir ⟨⟨"../" ++ n, TypeReg, mode⟩, payload, none⟩ w).2 = none ∧
    os.Stat env (extractEntry env destDir ⟨⟨"../" ++ n, TypeReg, mode⟩, payload, none⟩ w).1.fs
        (filepath.Join [destDir, "../" ++ n]) = .ok (.file (permOf mode) payload) ∧
    resolve env.cwd (filepath.Join [destDir, "../" ++ n]) = P ++ [n] ∧
    ¬ resolve env.cwd destDir <+: resolve env.cwd (filepath.Join [destDir, "../" ++ n]) := by
  have hname : "../" ++ n = ".." ++ "/" ++ n := by
    simp [String.ext_iff, String.data_append]
  rw [hname] at habs ⊢
  have hP : filepath.Join [destDir, ".."] ≠ "" := Join_ne_empty _ _ hd
  have hT : filepath.Join [destDir, ".." ++ "/" ++ n] ≠ "" := Join_ne_empty _ _ hd
  have hQ : resolve env.cwd (filepath.Join [destDir, ".."]) = P := by
    rw [resolve_Join env.cwd destDir ".." [] hd, hpos]
    exact resolveFrom_dotdot P d
  have hTpos : resolve env.cwd (filepath.Join [destDir, ".." ++ "/" ++ n]) = P ++ [n] := by
    rw [resolve_Join_child env.cwd destDir ".." n hd hn, hQ]
  rw [Stat_of_ne env _ _ hP, hQ] at hpar
  rw [Stat_of_ne env _ _ hT, hTpos] at habs
  obtain ⟨kids, hk⟩ := find_of_stat_dir w.fs P q hpar
  have hnone := getChild_none_of_stat w.fs P q kids n hk habs
  obtain ⟨m1, h1, h2, h3⟩ := extractEntry_reg env w destDir ".." n mode payload q kids w.fs
    (.file (permOf mode) payload) hd hn (by rw [hQ]; exact mkdirAll_of_dir _ _ _ q kids hk)
    (by rw [hQ]; exact hk) (by rw [hnone]; rfl)
  rw [hQ] at h2
  refine ⟨by rw [h1], ?_, hTpos, ?_⟩
  · rw [h1, Stat_of_ne env _ _ hT, hTpos]
    simpa [println] using stat_of_find m1 _ _ h2
  · rw [hpos, hTpos]
    intro hpre
    have := hpre.eq_of_length (by simp)
    simp at this
    exact hne this

/-- C10, witness: the entry `../x` extracted into `/home/u` is written to `/home/x`. -/
theorem extractTarGz_no_containment_witness :
    os.Stat (sampleEnv ⟨[], none⟩)
      (extractEntry (sampleEnv ⟨[], none⟩)
        "/home/u" ⟨⟨"../" ++ "x", TypeReg, 0o644⟩, [120], none⟩
        ⟨bareHome, []⟩).1.fs
      (filepath.Join ["/home/u", "../" ++ "x"]) = .ok (.file (permOf 0o644) [120]) ∧
    resolve [] (filepath.Join ["/home/u", "../" ++ "x"]) = ["home"] ++ ["x"] :=
  have h := extractTarGz_no_containment
    (sampleEnv ⟨[], none⟩)
    ⟨bareHome, []⟩ "/home/u" "x" "u" ["home"]
    0o644 [120] 0o755 (by decide) (by decide) (by decide) (by decide) (by decide) (by decide)
  ⟨h.2.1, h.2.2.1⟩

/-! ## the launcher descriptors -/

theorem desktopPath_ne (homeDir : String) : desktopPath homeDir ≠ "" := by
  by_cases h : homeDir = ""
  · subst h; decide
  · exact Join_ne_empty _ _ h

theorem applicationsPath_ne (homeDir : String) : applicationsPath homeDir ≠ "" := by
  by_cases h : homeDir = ""
  · subst h; decide
  · exact Join_ne_empty _ _ h

theorem createIfNotExists_of_exists (env : Env) (content path : String) (w : World)
    (h : os.IsNotExist (os.Stat env w.fs path) = false) :
    createIfNotExists env content path w
      = (println ["Desktop icon already exists at", path] w, none) := by
  simp [createIfNotExists, h]

theorem IsNotExist_ok (i : Info) : os.IsNotExist (.ok i) = false := rfl

theorem IsNotExist_iff (r : Except Errno Info) :
    os.IsNotExist r = true ↔ r = .error .ENOENT := by
  cases r with
  | ok i => simp [os.IsNotExist]
  | error e => cases e <;> simp [os.IsNotExist]

/-- Whatever exists stays as it is when `createIfNotExists` runs: it writes only
where nothing was. -/
theorem createIfNotExists_keeps (env : Env) (content path : String) (w : World)
    (t : List String) (i : Info) (h : w.fs.stat t = .ok i) :
    (createIfNotExists env content path w).1.fs.stat t = .ok i := by
  unfold createIfNotExists
  by_cases hx : os.IsNotExist (os.Stat env w.fs path) = true
  · simp only [hx, if_true]
    by_cases hp : path = ""
    · simp [os.WriteFile, os.writeOpen, locate, hp, println, h]
    · have hs := (IsNotExist_iff _).1 hx
      rw [Stat_of_ne env _ _ hp] at hs
      simp only [os.WriteFile, os.writeOpen, locate, hp, if_false, println]
      cases ha : w.fs.alter (openWrite true 493 (bytesOf content)) (resolve env.cwd path) with
      | error e => simpa using h
      | ok m =>
        simp only
        exact alter_frame_of_absent _ w.fs m _ t _ i ha hs h
  · simp only [hx, if_false, println]
    exact h

theorem createDesktopFile_keeps (env : Env) (homeDir execPath : String) (w : World)
    (t : List String) (i : Info) (h : w.fs.stat t = .ok i) :
    (createDesktopFile env homeDir execPath w).1.fs.stat t = .ok i := by
  unfold createDesktopFile
  have h1 := createIfNotExists_keeps env (desktopFileContent execPath) (desktopPath homeDir) w t i h
  cases hc : createIfNotExists env (desktopFileContent execPath) (desktopPath homeDir) w with
  | mk w1 r1 =>
    rw [hc] at h1
    cases r1 with
    | some err => exact h1
    | none =>
      have h2 := createIfNotExists_keeps env (desktopFileContent execPath)
        (applicationsPath homeDir) w1 t i h1
      simp only
      cases hc2 : createIfNotExists env (desktopFileContent execPath)
          (applicationsPath homeDir) w1 with
      | mk w2 r2 =>
        rw [hc2] at h2
        cases r2 <;> exact h2

/-- C3. Launcher non-clobber: for every file system, home directory and executable
path, a file that already exists at a launcher target
(`<home>/Desktop/discord.desktop` or
`<home>/.local/share/applications/discord.desktop`) has the same mode and the same
bytes after `createDesktopFile`, and `createIfNotExists` reports no error for that
target and changes nothing; when both targets exist, `createDesktopFile` returns nil
and the file system is unchanged. -/
theorem createDesktopFile_non_clobber (env : Env) (homeDir execPath : String) (w : World) :
    (∀ (p : Nat) (c : List Nat),
        os.Stat env w.fs (desktopPath homeDir) = .ok (.file p c) →
        createIfNotExists env (desktopFileContent execPath) (desktopPath homeDir) w
          = (println ["Desktop icon already exists at", desktopPath homeDir] w, none) ∧
        os.Stat env (createDesktopFile env homeDir execPath w).1.fs (desktopPath homeDir)
          = .ok (.file p c)) ∧
    (∀ (p : Nat) (c : List Nat),
        os.Stat env w.fs (applicationsPath homeDir) = .ok (.file p c) →
        (∀ w1 : World,
          w1 = (createIfNotExists env (desktopFileContent execPath) (desktopPath homeDir) w).1 →
          createIfNotExists env (desktopFileContent execPath) (applicationsPath homeDir) w1
            = (println ["Desktop icon already exists at", applicationsPath homeDir] w1, none)) ∧
        os.Stat env (createDesktopFile env homeDir execPath w).1.fs (applicationsPath homeDir)
          = .ok (.file p c)) ∧
    (∀ i j : Info,
        os.Stat env w.fs (desktopPath homeDir) = .ok i →
        os.Stat env w.fs (applicationsPath homeDir) = .ok j →
        (createDesktopFile env homeDir execPath w).2 = none ∧
        (createDesktopFile env homeDir execPath w).1.fs = w.fs) := by
  have hd := desktopPath_ne homeDir
  have ha := applicationsPath_ne homeDir
  refine ⟨?_, ?_, ?_⟩
  · intro p c h
    refine ⟨createIfNotExists_of_exists env _ _ w (by rw [h]; rfl), ?_⟩
    rw [Stat_of_ne env _ _ hd] at h ⊢
    exact createDesktopFile_keeps env homeDir execPath w _ _ h
  · intro p c h
    rw [Stat_of_ne env _ _ ha] at h
    refine ⟨?_, ?_⟩
    · intro w1 hw1
      subst hw1
      apply createIfNotExists_of_exists
      rw [Stat_of_ne env _ _ ha, createIfNotExists_keeps env _ _ w _ _ h]
      rfl
    · rw [Stat_of_ne env _ _ ha]
      exact createDesktopFile_keeps env homeDir execPath w _ _ h
  · intro i j h1 h2
    have e1 := createIfNotExists_of_exists env (desktopFileContent execPath) _ w
      (by rw [h1]; rfl)
    have e2 := createIfNotExists_of_exists env (desktopFileContent execPath)
      (applicationsPath homeDir)
      (println ["Desktop icon already exists at", desktopPath homeDir] w)
      (by simp only [println]; rw [h2]; rfl)
    simp only [createDesktopFile, e1, e2]
    exact ⟨trivial, rfl⟩

/-! ## launcher directories -/

theorem resolve_empty (cwd : List String) : resolve cwd "" = cwd := by
  simp [resolve, isRooted, components, splitSlash, resolveStep]

theorem resolve_plain (cwd : List String) (n : String) (hn : plainName n = true) :
    resolve cwd n = cwd ++ [n] := by
  have hs := ((plainName_iff n).1 hn).2
  unfold resolve
  rw [isRooted_of_slashFree n hs, components_of_slashFree n hs]
  simp [resolveStep_of_plain _ n hn]

theorem ne_empty_of_plain (n : String) (hn : plainName n = true) : n ≠ "" :=
  ((plainName_iff n).1 hn).1.1

/-- Joining one more plain name goes one step down. -/
theorem resolve_Join_snoc (cwd : List String) (elems : List String) (n : String)
    (hn : plainName n = true) :
    resolve cwd (filepath.Join (elems ++ [n])) = resolve cwd (filepath.Join elems) ++ [n] := by
  induction elems with
  | nil =>
    have hne := ne_empty_of_plain n hn
    simp only [List.nil_append, filepath.Join, hne, if_false, joinSlash]
    rw [resolve_Clean cwd n hne, resolve_plain cwd n hn, resolve_empty]
  | cons e rest ih =>
    by_cases he : e = ""
    · subst he
      simpa [filepath.Join] using ih
    · rw [List.cons_append, Join_cons e _ he, Join_cons e _ he,
        resolve_Clean cwd _ (joinSlash_ne_empty e _ he),
        resolve_Clean cwd _ (joinSlash_ne_empty e _ he)]
      have : joinSlash (e :: (rest ++ [n])) = joinSlash (e :: rest) ++ "/" ++ n :=
        joinSlash_append_singleton (e :: rest) n (by simp)
      rw [this, resolve_append_slash_append cwd _ n (joinSlash_ne_empty e _ he),
        resolveFrom_plain _ n hn]

theorem stat_append_error (n : Node) (D r : List String) (e : Errno)
    (h : n.stat D = .error e) : n.stat (D ++ r) = .error e := by
  unfold Node.stat at h ⊢
  rw [find_append]
  cases hf : n.find D with
  | error e' => simpa [hf] using h
  | ok m => simp [hf] at h

theorem alterAt_error (f : Option Node → Except Errno (Option Node)) (D : List String)
    (c : String) (o : Option Node) (e : Errno) (h : statOpt o D = .error e) :
    alterAt f o (D ++ [c]) = .error e := by
  induction D generalizing o with
  | nil =>
    cases o with
    | none => simpa [statOpt, alterAt] using h
    | some n => simp [statOpt, Node.stat, Node.find] at h
  | cons d rest ih =>
    cases o with
    | none => simpa [statOpt, alterAt] using h
    | some n =>
      cases n with
      | file p dd => simpa [statOpt, stat_file_cons, alterAt] using h
      | dir p ch =>
        simp only [statOpt, stat_dir_cons] at h
        have := ih _ h
        show alterAt f (some (Node.dir p ch)) (d :: (rest ++ [c])) = _
        rw [alterAt, this]

theorem alter_error (f : Option Node → Except Errno (Option Node)) (n : Node)
    (D : List String) (c : String) (e : Errno) (h : n.stat D = .error e) :
    n.alter f (D ++ [c]) = .error e := by
  simp [Node.alter, alterAt_error f D c (some n) e h]

theorem desktopDir_ne (homeDir : String) : desktopDir homeDir ≠ "" := by
  by_cases h : homeDir = ""
  · subst h; decide
  · exact Join_ne_empty _ _ h

theorem applicationsDir_ne (homeDir : String) : applicationsDir homeDir ≠ "" := by
  by_cases h : homeDir = ""
  · subst h; decide
  · exact Join_ne_empty _ _ h

theorem resolve_desktopPath (cwd : List String) (homeDir : String) :
    resolve cwd (desktopPath homeDir) = resolve cwd (desktopDir homeDir) ++ ["discord.desktop"] :=
  resolve_Join_snoc cwd [homeDir, "Desktop"] "discord.desktop" (by decide)

theorem resolve_applicationsPath (cwd : List String) (homeDir : String) :
    resolve cwd (applicationsPath homeDir)
      = resolve cwd (applicationsDir homeDir) ++ ["discord.desktop"] :=
  resolve_Join_snoc cwd [homeDir, ".local", "share", "applications"] "discord.desktop"
    (by decide)

theorem resolve_desktopDir (cwd : List String) (homeDir : String) :
    resolve cwd (desktopDir homeDir) = resolve cwd (filepath.Join [homeDir]) ++ ["Desktop"] :=
  resolve_Join_snoc cwd [homeDir] "Desktop" (by decide)

theorem resolve_applicationsDir (cwd : List String) (homeDir : String) :
    resolve cwd (applicationsDir homeDir)
      = resolve cwd (filepath.Join [homeDir, ".local", "share"]) ++ ["applications"] :=
  resolve_Join_snoc cwd [homeDir, ".local", "share"] "applications" (by decide)

theorem launcher_targets_apart (cwd : List String) (homeDir : String) :
    resolve cwd (desktopPath homeDir) ≠ resolve cwd (applicationsPath homeDir) := by
  rw [resolve_desktopPath, resolve_applicationsPath, resolve_desktopDir,
    resolve_applicationsDir]
  intro h
  have h1 := List.append_inj_left' h rfl
  have h2 := (List.append_inj' h1 rfl).2
  simp at h2

theorem createIfNotExists_writes (env : Env) (content path : String) (w : World)
    (D : List String) (c : String) (q : Nat) (hp : path ≠ "")
    (hpos : resolve env.cwd path = D ++ [c]) (hd : w.fs.stat D = .ok (.dir q))
    (habs : w.fs.stat (D ++ [c]) = .error .ENOENT) :
    ∃ m, createIfNotExists env content path w
        = ({ (println ["Creating desktop icon at", path] w) with fs := m }, none) ∧
      w.fs.alter (openWrite true 0o755 (bytesOf content)) (D ++ [c]) = .ok m ∧
      m.stat (D ++ [c]) = .ok (.file 0o755 (bytesOf content)) := by
  obtain ⟨kids, hk⟩ := find_of_stat_dir w.fs D q hd
  have hnone := getChild_none_of_stat w.fs D q kids c hk habs
  obtain ⟨m, h1, h2, _⟩ := alter_child w.fs D q kids c true 0o755 (bytesOf content)
    (.file 0o755 (bytesOf content)) hk (by rw [hnone]; rfl)
  refine ⟨m, ?_, h1, stat_of_find m _ _ h2⟩
  have hs : os.IsNotExist (os.Stat env w.fs path) = true := by
    rw [Stat_of_ne env _ _ hp, hpos, habs]; rfl
  simp [createIfNotExists, hs, os.WriteFile, os.writeOpen, locate, hp, hpos, println, h1]

theorem createIfNotExists_fails (env : Env) (content path : String) (w : World)
    (D : List String) (c : String) (hp : path ≠ "")
    (hpos : resolve env.cwd path = D ++ [c]) (hd : w.fs.stat D = .error .ENOENT) :
    createIfNotExists env content path w
      = (println ["Creating desktop icon at", path] w, some (.sys "open" path .ENOENT)) := by
  have habs := stat_append_error w.fs D [c] _ hd
  have hs : os.IsNotExist (os.Stat env w.fs path) = true := by
    rw [Stat_of_ne env _ _ hp, hpos, habs]; rfl
  have ha := alter_error (openWrite true 0o755 (bytesOf content)) w.fs D c _ hd
  simp [createIfNotExists, hs, os.WriteFile, os.writeOpen, locate, hp, hpos, println, ha]

/-- What `createIfNotExists` does not pass through looks the same afterwards. -/
theorem createIfNotExists_frame (env : Env) (content path : String) (w : World)
    (t : List String) (h : ¬ resolve env.cwd path <+: t) :
    (createIfNotExists env content path w).1.fs.stat t = w.fs.stat t := by
  unfold createIfNotExists
  by_cases hx : os.IsNotExist (os.Stat env w.fs path) = true
  · simp only [hx, if_true]
    by_cases hp : path = ""
    · simp [os.WriteFile, os.writeOpen, locate, hp, println]
    · simp only [os.WriteFile, os.writeOpen, locate, hp, if_false, println]
      cases ha : w.fs.alter (openWrite true 493 (bytesOf content)) (resolve env.cwd path) with
      | error e => rfl
      | ok m =>
        simp only
        exact alter_frame _ w.fs m _ t ha h
  · have hx' : os.IsNotExist (os.Stat env w.fs path) = false := by simpa using hx
    simp only [hx', Bool.false_eq_true, if_false, println]

theorem resolve_desktopPath_home (cwd : List String) (homeDir : String) :
    resolve cwd (desktopPath homeDir)
      = resolve cwd (filepath.Join [homeDir]) ++ ["Desktop", "discord.desktop"] := by
  rw [resolve_desktopPath, resolve_desktopDir]
  simp

theorem resolve_applicationsDir_home (cwd : List String) (homeDir : String) :
    resolve cwd (applicationsDir homeDir)
      = resolve cwd (filepath.Join [homeDir]) ++ [".local", "share", "applications"] := by
  have h1 := resolve_Join_snoc cwd [homeDir, ".local"] "share" (by decide)
  have h2 := resolve_Join_snoc cwd [homeDir] ".local" (by decide)
  simp only [List.cons_append, List.nil_append] at h1 h2
  rw [resolve_applicationsDir, h1, h2]
  simp

theorem desktopPath_not_below_dir (cwd : List String) (homeDir : String) :
    ¬ resolve cwd (desktopPath homeDir) <+: resolve cwd (applicationsDir homeDir) := by
  rw [resolve_desktopPath_home, resolve_applicationsDir_home, List.prefix_append_right_inj]
  decide

theorem desktopPath_not_below_path (cwd : List String) (homeDir : String) :
    ¬ resolve cwd (desktopPath homeDir) <+: resolve cwd (applicationsPath homeDir) := by
  rw [resolve_applicationsPath, resolve_desktopPath_home, resolve_applicationsDir_home,
    List.append_assoc, List.prefix_append_right_inj]
  decide

/-- C6, as the code has it. `createDesktopFile` creates no directory. It handles the
desktop target first and the menu target only when the desktop target gave no
error. For each target it reaches: when the target file is absent and the target's
directory (`<home>/Desktop`, resp. `<home>/.local/share/applications`) exists, the
rendered descriptor is written there (mode 0755) with no error for that target; when
the target's directory does not exist, the write fails with `ENOENT`,
`createDesktopFile` returns that error, and the directory is not created (for the
desktop target the file system is unchanged; for the menu target it is as the
desktop target left it). -/
theorem createDesktopFile_needs_dirs (env : Env) (homeDir execPath : String) (w : World) :
    (∀ q : Nat,
        os.Stat env w.fs (desktopDir homeDir) = .ok (.dir q) →
        os.Stat env w.fs (desktopPath homeDir) = .error .ENOENT →
        (createIfNotExists env (desktopFileContent execPath) (desktopPath homeDir) w).2 = none ∧
        os.Stat env (createDesktopFile env homeDir execPath w).1.fs (desktopPath homeDir)
          = .ok (.file 0o755 (bytesOf (desktopFileContent execPath)))) ∧
    (os.Stat env w.fs (desktopDir homeDir) = .error .ENOENT →
        createDesktopFile env homeDir execPath w
          = (println ["Creating desktop icon at", desktopPath homeDir] w,
              some (.sys "open" (desktopPath homeDir) .ENOENT))) ∧
    (∀ q : Nat,
        (createIfNotExists env (desktopFileContent execPath) (desktopPath homeDir) w).2 = none →
        os.Stat env w.fs (applicationsDir homeDir) = .ok (.dir q) →
        os.Stat env w.fs (applicationsPath homeDir) = .error .ENOENT →
        (createDesktopFile env homeDir execPath w).2 = none ∧
        os.Stat env (createDesktopFile env homeDir execPath w).1.fs (applicationsPath homeDir)
          = .ok (.file 0o755 (bytesOf (desktopFileContent execPath)))) ∧
    ((createIfNotExists env (desktopFileContent execPath) (desktopPath homeDir) w).2 = none →
        os.Stat env w.fs (applicationsDir homeDir) = .error .ENOENT →
        (createDesktopFile env homeDir execPath w).2
          = some (.sys "open" (applicationsPath homeDir) .ENOENT) ∧
        (createDesktopFile env homeDir execPath w).1.fs
          = (createIfNotExists env (desktopFileContent execPath) (desktopPath homeDir) w).1.fs ∧
        os.Stat env (createDesktopFile env homeDir execPath w).1.fs (applicationsDir homeDir)
          = .error .ENOENT) := by
  have hdp := desktopPath_ne homeDir
  have hap := applicationsPath_ne homeDir
  have hdd := desktopDir_ne homeDir
  have had := applicationsDir_ne homeDir
  have hp1 := resolve_desktopPath env.cwd homeDir
  have hp2 := resolve_applicationsPath env.cwd homeDir
  refine ⟨?_, ?_, ?_, ?_⟩
  · intro q h1 h3
    rw [Stat_of_ne env _ _ hdd] at h1
    rw [Stat_of_ne env _ _ hdp, hp1] at h3
    obtain ⟨m1, e1, a1, s1⟩ := createIfNotExists_writes env (desktopFileContent execPath)
      _ w _ _ q hdp hp1 h1 h3
    refine ⟨by rw [e1], ?_⟩
    rw [Stat_of_ne env _ _ hdp, hp1]
    simp only [createDesktopFile, e1]
    have hk := createIfNotExists_keeps env (desktopFileContent execPath)
      (applicationsPath homeDir)
      { (println ["Creating desktop icon at", desktopPath homeDir] w) with fs := m1 } _ _ s1
    rcases hc : createIfNotExists env (desktopFileContent execPath) (applicationsPath homeDir)
      { (println ["Creating desktop icon at", desktopPath homeDir] w) with fs := m1 }
      with ⟨w2, _ | e2⟩
    · rw [hc] at hk
      exact hk
    · rw [hc] at hk
      exact hk
  · intro h1
    rw [Stat_of_ne env _ _ hdd] at h1
    have e1 := createIfNotExists_fails env (desktopFileContent execPath) _ w _ _ hdp hp1 h1
    simp only [createDesktopFile, e1]
  · intro q h0 h2 h4
    rw [Stat_of_ne env _ _ had] at h2
    rw [Stat_of_ne env _ _ hap] at h4
    rcases hc : createIfNotExists env (desktopFileContent execPath) (desktopPath homeDir) w
      with ⟨w1, _ | e1⟩
    swap
    · rw [hc] at h0
      simp at h0
    have hf2 := createIfNotExists_frame env (desktopFileContent execPath) (desktopPath homeDir)
      w _ (desktopPath_not_below_dir env.cwd homeDir)
    have hf4 := createIfNotExists_frame env (desktopFileContent execPath) (desktopPath homeDir)
      w _ (desktopPath_not_below_path env.cwd homeDir)
    rw [hc] at hf2 hf4
    simp only at hf2 hf4
    rw [h2] at hf2
    rw [h4, hp2] at hf4
    obtain ⟨m2, e2, a2, s2⟩ := createIfNotExists_writes env (desktopFileContent execPath)
      (applicationsPath homeDir) w1 _ _ q hap hp2 hf2 hf4
    simp only [createDesktopFile, hc, e2, Stat_of_ne env _ _ hap, hp2]
    exact ⟨trivial, s2⟩
  · intro h0 h2
    rw [Stat_of_ne env _ _ had] at h2
    rcases hc : createIfNotExists env (desktopFileContent execPath) (desktopPath homeDir) w
      with ⟨w1, _ | e1⟩
    swap
    · rw [hc] at h0
      simp at h0
    have hf2 := createIfNotExists_frame env (desktopFileContent execPath) (desktopPath homeDir)
      w _ (desktopPath_not_below_dir env.cwd homeDir)
    rw [hc] at hf2
    simp only at hf2
    rw [h2] at hf2
    have e2 := createIfNotExists_fails env (desktopFileContent execPath)
      (applicationsPath homeDir) w1 _ _ hap hp2 hf2
    simp only [createDesktopFile, hc, e2, Stat_of_ne env _ _ had, println]
    exact ⟨trivial, trivial, hf2⟩

/-! ## the install directory -/

theorem visibleEntries_mem (ch : List (String × Node)) (e : DirEntry)
    (h : e ∈ visibleEntries ch) :
    plainName e.name = true ∧ ∃ v, getChild e.name ch = some v ∧ v.isDir = e.isDir := by
  induction ch with
  | nil => simp [visibleEntries] at h
  | cons kv rest ih =>
    obtain ⟨k, v⟩ := kv
    by_cases hk : plainName k = true
    · simp only [visibleEntries, hk, if_true, List.mem_cons, List.mem_filter,
        decide_eq_true_eq] at h
      rcases h with h | ⟨h, hne⟩
      · subst h
        exact ⟨hk, v, by simp [getChild], rfl⟩
      · obtain ⟨hp, x, hx, hxd⟩ := ih h
        exact ⟨hp, x, by simp [getChild, Ne.symm hne, hx], hxd⟩
    · simp only [visibleEntries, hk, if_false] at h
      obtain ⟨hp, x, hx, hxd⟩ := ih h
      have hne : k ≠ e.name := fun heq => hk (heq ▸ hp)
      exact ⟨hp, x, by simp [getChild, hne, hx], hxd⟩

theorem mem_sortEntries (es : List DirEntry) (e : DirEntry) :
    e ∈ sortEntries es ↔ e ∈ es :=
  (List.perm_insertionSort _ es).mem_iff

theorem ReadDir_dir (env : Env) (fs : Node) (home : String) (entries : List DirEntry)
    (e : DirEntry) (h : os.ReadDir env fs home = .ok entries) (he : e ∈ entries)
    (hd : e.isDir = true) :
    home ≠ "" ∧ plainName e.name = true ∧
      ∃ p ch, fs.find (resolve env.cwd home ++ [e.name]) = .ok (.dir p ch) := by
  have hne : home ≠ "" := by
    intro h0
    simp [os.ReadDir, locate, h0] at h
  simp only [os.ReadDir, locate, hne, if_false] at h
  cases hf : fs.find (resolve env.cwd home) with
  | error err => simp [hf] at h
  | ok node =>
    rw [hf] at h
    cases node with
    | file q d => simp at h
    | dir q kids =>
      simp only [Except.ok.injEq] at h
      subst h
      obtain ⟨hp, v, hv, hvd⟩ := visibleEntries_mem kids e ((mem_sortEntries _ e).1 he)
      refine ⟨hne, hp, ?_⟩
      rw [find_append, hf]
      simp only [find_dir_cons, hv, Node.find]
      cases v with
      | file p d => simp [Node.isDir, hd] at hvd
      | dir p ch => exact ⟨p, ch, rfl⟩

theorem placeNode_ok (src : Node) (x y : Option Node) (h : placeNode src x = .ok y) :
    y = some src := by
  cases x with
  | none => simp only [placeNode, Except.ok.injEq] at h; exact h.symm
  | some n =>
    cases n with
    | file p d =>
      simp only [placeNode] at h
      split_ifs at h
      simp only [Except.ok.injEq] at h; exact h.symm
    | dir p ch =>
      simp only [placeNode] at h
      split_ifs at h
      simp only [Except.ok.injEq] at h; exact h.symm

/-- A directory renamed with `os.Rename` is a directory under its new name. -/
theorem Rename_dir (env : Env) (fs m : Node) (oldname newname : String) (p : Nat)
    (ch : List (String × Node)) (h : os.Rename env fs oldname newname = .ok m)
    (hold : fs.find (resolve env.cwd oldname) = .ok (.dir p ch)) :
    ∃ q, m.stat (resolve env.cwd newname) = .ok (.dir q) := by
  have ho : oldname ≠ "" := by
    intro h0
    simp [os.Rename, locate, h0] at h
  have hn : newname ≠ "" := by
    intro h0
    simp [os.Rename, locate, ho, h0] at h
  simp only [os.Rename, locate, ho, hn, if_false, hold] at h
  have hsys : (match fs.renameAt (resolve env.cwd oldname) (resolve env.cwd newname) with
      | .error e => (Except.error (Error.link "rename" oldname newname e) : Except Error Node)
      | .ok m => .ok m) = .ok m → ∃ q, m.stat (resolve env.cwd newname) = .ok (.dir q) := by
    intro h
    cases hr : fs.renameAt (resolve env.cwd oldname) (resolve env.cwd newname) with
    | error e => simp [hr] at h
    | ok m' =>
      simp only [hr, Except.ok.injEq] at h
      subst h
      simp only [Node.renameAt, hold] at hr
      by_cases heq : resolve env.cwd oldname = resolve env.cwd newname
      · simp only [heq, if_true, Except.ok.injEq] at hr
        subst hr
        exact ⟨p, by rw [← heq]; exact stat_of_find fs _ _ hold⟩
      · simp only [heq, if_false] at hr
        split_ifs at hr
        cases ha : fs.alter (fun _ => Except.ok none) (resolve env.cwd oldname) with
        | error e => simp [ha] at hr
        | ok m1 =>
          simp only [ha] at hr
          have := alter_spec _ m1 m' _ hr
          have hy := placeNode_ok _ _ _ this
          exact ⟨p, stat_of_find m' _ _ (find_of_findOpt m' _ _ hy)⟩
  cases hf : fs.find (resolve env.cwd newname) with
  | error e =>
    rw [hf] at h
    exact hsys h
  | ok node =>
    rw [hf] at h
    cases node with
    | file q d => exact hsys h
    | dir q kids =>
      simp only at h
      split_ifs at h with hc
      simp only [Except.ok.injEq] at h
      subst h
      exact ⟨q, stat_of_find fs _ _ hf⟩

theorem println_getLast (args : List String) (w : World) :
    (println args w).out.getLast? = some args := by
  simp [println]

/-- C7, as the code has it. For every initial file system and every downloaded
archive, if the pipeline in `main` runs to success (the last line printed is
"Installation complete!"), then `<home>/Discord` exists and is a directory. That the
executable is at `<home>/Discord/Discord` is assumed by `main`, not checked. -/
theorem main_success_install_dir (env : Env) (w : World) (homeDir : String)
    (hu : env.user = .ok homeDir)
    (hs : (main env w).out.getLast? = some ["Installation complete!"]) :
    ∃ p, os.Stat env (main env w).fs (filepath.Join [homeDir, "Discord"]) = .ok (.dir p) := by
  have hD : filepath.Join [homeDir, "Discord"] ≠ "" := Join_pair_ne_empty _ _ (by decide)
  simp only [main, mainWith, realSys, hu] at hs ⊢
  rcases h1 : removeDirIfExists env (filepath.Join [homeDir, "Discord"])
    (println ["=== Discord Installer ==="] w) with ⟨w1, _ | e1⟩
  swap
  · rw [h1] at hs; simp [println] at hs
  rw [h1] at hs; simp only at hs ⊢
  rcases h2 : downloadFile env "https://discord.com/api/download?platform=linux&format=tar.gz"
    "/var/tmp/discord.tar.gz" w1 with ⟨w2, _ | e2⟩
  swap
  · rw [h2] at hs; simp [println] at hs
  rw [h2] at hs; simp only at hs ⊢
  rcases h3 : extractTarGz env "/var/tmp/discord.tar.gz" homeDir w2 with ⟨w3, _ | e3⟩
  swap
  · rw [h3] at hs; simp [println] at hs
  rw [h3] at hs; simp only at hs ⊢
  cases h4 : os.ReadDir env w3.fs homeDir with
  | error e4 => rw [h4] at hs; simp [println] at hs
  | ok entries =>
    rw [h4] at hs; simp only [h4] at hs ⊢
    by_cases h5 : findExtractedDir env.caseTable homeDir entries = ""
    · rw [h5] at hs; simp [println] at hs
    · simp only [h5, if_false] at hs ⊢
      obtain ⟨e, he, hq, hr⟩ := findExtractedDir_mem env.caseTable homeDir entries h5
      simp only [qualifies, Bool.and_eq_true] at hq
      obtain ⟨hne, hp, q, ch, hfind⟩ := ReadDir_dir env w3.fs homeDir entries e h4 he hq.1
      have hpos := resolve_Join_plain env.cwd homeDir e.name hne hp
      have hsrc : w3.fs.find (resolve env.cwd (findExtractedDir env.caseTable homeDir entries))
          = .ok (.dir q ch) := by rw [hr, hpos]; exact hfind
      have hfin : ∀ (s : World) (p : Nat),
          s.fs.stat (resolve env.cwd (filepath.Join [homeDir, "Discord"])) = .ok (.dir p) →
          ∃ p', os.Stat env (createDesktopFile env homeDir
            (filepath.Join [filepath.Join [homeDir, "Discord"], "Discord"]) s).1.fs
            (filepath.Join [homeDir, "Discord"]) = .ok (.dir p') := by
        intro s p hsd
        exact ⟨p, by rw [Stat_of_ne env _ _ hD]; exact createDesktopFile_keeps env _ _ s _ _ hsd⟩
      by_cases h6 : findExtractedDir env.caseTable homeDir entries = filepath.Join [homeDir, "Discord"]
      · simp only [h6, ne_eq, not_true_eq_false, if_false] at hs ⊢
        rw [h6] at hsrc
        obtain ⟨p', hp'⟩ := hfin w3 q (stat_of_find _ _ _ hsrc)
        rcases h7 : createDesktopFile env homeDir
          (filepath.Join [filepath.Join [homeDir, "Discord"], "Discord"]) w3 with ⟨w4, _ | e7⟩
        · rw [h7] at hp'
          simp only [h7, println]
          exact ⟨p', hp'⟩
        · rw [h7] at hs; simp [println] at hs
      · simp only [ne_eq, h6, not_false_eq_true, if_true] at hs ⊢
        cases h8 : os.Rename env
            (println ["Renaming", findExtractedDir env.caseTable homeDir entries, "to",
              filepath.Join [homeDir, "Discord"]] w3).fs
            (findExtractedDir env.caseTable homeDir entries) (filepath.Join [homeDir, "Discord"]) with
        | error e8 => rw [h8] at hs; simp [println] at hs
        | ok m =>
          rw [h8] at hs; simp only at hs ⊢
          obtain ⟨p, hp⟩ := Rename_dir env _ m _ _ q ch h8 (by simpa [println] using hsrc)
          obtain ⟨p', hp'⟩ := hfin
            { (println ["Renaming", findExtractedDir env.caseTable homeDir entries, "to",
              filepath.Join [homeDir, "Discord"]] w3) with fs := m } p hp
          rcases h7 : createDesktopFile env homeDir
            (filepath.Join [filepath.Join [homeDir, "Discord"], "Discord"])
            { (println ["Renaming", findExtractedDir env.caseTable homeDir entries, "to",
              filepath.Join [homeDir, "Discord"]] w3) with fs := m } with ⟨w4, _ | e7⟩
          · rw [h7] at hp'
            simp only [h7, println]
            exact ⟨p', hp'⟩
          · rw [h7] at hs; simp [println] at hs

/-! ## examples -/

/-- C3, witness: a launcher of five bytes on the desktop is still there, byte for
byte, after `createDesktopFile`. -/
theorem createDesktopFile_non_clobber_witness :
    os.Stat (sampleEnv ⟨[], none⟩)
      (createDesktopFile (sampleEnv ⟨[], none⟩) "/home/u" "/home/u/Discord/Discord"
        ⟨launcherHome, []⟩).1.fs (desktopPath "/home/u")
      = .ok (.file 0o644 [35, 109, 105, 110, 101]) :=
  ((createDesktopFile_non_clobber (sampleEnv ⟨[], none⟩) "/home/u" "/home/u/Discord/Discord"
    ⟨launcherHome, []⟩).1 0o644 [35, 109, 105, 110, 101] (by decide)).2

/-- C5, the failing input. The archive `{dir a/, file a/b.txt mode 0644 content x}`
is extracted into a home directory where `a/b.txt` already holds the three bytes
`old` (mode 0600): `extractTarGz` returns nil, and the file then holds `xld` with
mode 0600, not the payload `x`: the file is opened without `O_TRUNC`. -/
theorem extractTarGz_keeps_stale_bytes :
    (extractTarGz (sampleEnv fidelityArchive) "/var/tmp/discord.tar.gz" "/home/u"
        ⟨staleHome, []⟩).2 = none ∧
    os.Stat (sampleEnv fidelityArchive)
      (extractTarGz (sampleEnv fidelityArchive) "/var/tmp/discord.tar.gz" "/home/u"
        ⟨staleHome, []⟩).1.fs "/home/u/a/b.txt" = .ok (.file 0o600 [120, 108, 100]) ∧
    os.Stat (sampleEnv fidelityArchive)
      (extractTarGz (sampleEnv fidelityArchive) "/var/tmp/discord.tar.gz" "/home/u"
        ⟨staleHome, []⟩).1.fs "/home/u/a" = .ok (.dir 0o755) := by
  decide

/-- C6, counterexample: in a home directory without `Desktop`, the launcher target
is absent, `createDesktopFile` returns an error, and neither the descriptor nor the
directory exists afterwards. -/
theorem createDesktopFile_creates_no_dir :
    os.Stat (sampleEnv ⟨[], none⟩) bareHome (desktopPath "/home/u") = .error .ENOENT ∧
    (createDesktopFile (sampleEnv ⟨[], none⟩) "/home/u" "/home/u/Discord/Discord"
        ⟨bareHome, []⟩).2 = some (.sys "open" (desktopPath "/home/u") .ENOENT) ∧
    os.Stat (sampleEnv ⟨[], none⟩)
      (createDesktopFile (sampleEnv ⟨[], none⟩) "/home/u" "/home/u/Discord/Discord"
        ⟨bareHome, []⟩).1.fs (desktopPath "/home/u") = .error .ENOENT ∧
    os.Stat (sampleEnv ⟨[], none⟩)
      (createDesktopFile (sampleEnv ⟨[], none⟩) "/home/u" "/home/u/Discord/Discord"
        ⟨bareHome, []⟩).1.fs (desktopDir "/home/u") = .error .ENOENT := by
  decide

/-- C6, witness: the desktop launcher is present, the menu launcher is absent and
its directory exists: the menu descriptor is written and nil is returned. -/
theorem createDesktopFile_needs_dirs_witness :
    (createDesktopFile (sampleEnv ⟨[], none⟩) "/home/u" "/home/u/Discord/Discord"
        ⟨halfHome, []⟩).2 = none ∧
    os.Stat (sampleEnv ⟨[], none⟩)
      (createDesktopFile (sampleEnv ⟨[], none⟩) "/home/u" "/home/u/Discord/Discord"
        ⟨halfHome, []⟩).1.fs (applicationsPath "/home/u")
      = .ok (.file 0o755 (bytesOf (desktopFileContent "/home/u/Discord/Discord"))) :=
  (createDesktopFile_needs_dirs (sampleEnv ⟨[], none⟩) "/home/u" "/home/u/Discord/Discord"
    ⟨halfHome, []⟩).2.2.1 0o755 (by decide) (by decide) (by decide)

/-- C7, counterexample: the archive holds an empty directory `Discord/`. The run
ends with "Installation complete!", `/home/u/Discord` is a directory, and there is
no executable at `/home/u/Discord/Discord`. -/
theorem main_success_without_executable :
    (main (sampleEnv emptyAppArchive) ⟨desktopHome, []⟩).out.getLast?
        = some ["Installation complete!"] ∧
    os.Stat (sampleEnv emptyAppArchive) (main (sampleEnv emptyAppArchive) ⟨desktopHome, []⟩).fs
        "/home/u/Discord" = .ok (.dir 0o755) ∧
    os.Stat (sampleEnv emptyAppArchive) (main (sampleEnv emptyAppArchive) ⟨desktopHome, []⟩).fs
        "/home/u/Discord/Discord" = .error .ENOENT := by
  decide

/-- C7, witness: the successful run on the archive with the directory `Discord/`. -/
theorem main_success_install_dir_witness :
    ∃ p, os.Stat (sampleEnv emptyAppArchive)
      (main (sampleEnv emptyAppArchive) ⟨desktopHome, []⟩).fs
      (filepath.Join ["/home/u", "Discord"]) = .ok (.dir p) :=
  main_success_install_dir (sampleEnv emptyAppArchive) ⟨desktopHome, []⟩ "/home/u" rfl
    (by decide)

end Discordupdate
